import Mathlib

/-!
# Banking application (`src/fpos.c`): ledger, page allocator, transaction worker,
registry and round-robin scheduler

A shallow embedding of the C program.  C `int` values are modelled as `Int`;
every arithmetic result that is stored back into an `int` goes through
`wrapInt` (32-bit two's complement), so that overflow is visible.
An array together with its element count (`accounts` / `account_count`,
`memory_map.pages` / `page_count`) is modelled by the list of its live entries.
-/

namespace Fpos

/-! ## Machine integers -/

/-- Largest value of a C `int` (`INT_MAX` of `limits.h`). -/
def INT_MAX : Int := 2147483647

/-- Smallest value of a C `int`. -/
def INT_MIN : Int := -2147483648

/-- Reduction of a mathematical integer to the 32-bit two's complement range. -/
def wrapInt (x : Int) : Int := (x + 2147483648) % 4294967296 - 2147483648

/-- Capacity of the account table (`#define MAX_ACCOUNTS 100`). -/
def MAX_ACCOUNTS : Nat := 100

/-! ## Data model -/

/-- Record `Account` of the source. -/
structure Account where
  customer_id : Int
  balance : Int
deriving DecidableEq, Repr

/-- Record `MemoryPage` of the source; `data` is the `Account` stored in the
page's buffer, `none` while the buffer has never been written. -/
structure MemoryPage where
  data : Option Account
  size : Int
  is_used : Int
  last_access_time : Int
deriving DecidableEq, Repr

/-- Record `MemoryMap` of the source; `page_count` is `pages.length`. -/
structure MemoryMap where
  pages : List MemoryPage
  current_time : Int
deriving DecidableEq, Repr

/-- The globals the ledger operations work on: `accounts[0..account_count)`
and `memory_map`. -/
structure Bank where
  accounts : List Account
  memory_map : MemoryMap
deriving DecidableEq, Repr

/-! ## Account ledger -/

/-- Loop of `deposit` over the remaining entries: the first entry whose
`customer_id` matches receives `balance += amount` and the call returns 0;
without a match the call returns -1. -/
def depositScan (account_id amount : Int) : List Account → Int × List Account
  | [] => (-1, [])
  | a :: rest =>
    if a.customer_id = account_id then
      (0, { a with balance := wrapInt (a.balance + amount) } :: rest)
    else
      let r := depositScan account_id amount rest
      (r.1, a :: r.2)

/-- Function `deposit` of the source: return code and the account table afterwards. -/
def deposit (accounts : List Account) (account_id amount : Int) : Int × List Account :=
  if amount < 0 then (-4, accounts) else depositScan account_id amount accounts

/-- Loop of `withdraw` over the remaining entries: at the first entry whose
`customer_id` matches, `balance -= amount` and 0 when `balance >= amount`,
otherwise -2; without a match -1. -/
def withdrawScan (account_id amount : Int) : List Account → Int × List Account
  | [] => (-1, [])
  | a :: rest =>
    if a.customer_id = account_id then
      if a.balance ≥ amount then
        (0, { a with balance := wrapInt (a.balance - amount) } :: rest)
      else
        (-2, a :: rest)
    else
      let r := withdrawScan account_id amount rest
      (r.1, a :: r.2)

/-- Function `withdraw` of the source: return code and the account table afterwards. -/
def withdraw (accounts : List Account) (account_id amount : Int) : Int × List Account :=
  if amount < 0 then (-4, accounts) else withdrawScan account_id amount accounts

/-- Loop of `check_balance`: balance of the first entry with the given id, else -1. -/
def checkBalanceScan (account_id : Int) : List Account → Int
  | [] => -1
  | a :: rest =>
    if a.customer_id = account_id then a.balance else checkBalanceScan account_id rest

/-- Function `check_balance` of the source (it never writes to the ledger). -/
def check_balance (accounts : List Account) (account_id : Int) : Int :=
  if account_id < 0 then -4 else checkBalanceScan account_id accounts

/-- Stored balance of the first entry whose `customer_id` is `id`, if any: the
entry every scan of the ledger operations stops at. -/
def findBalance (id : Int) : List Account → Option Int
  | [] => none
  | a :: rest => if a.customer_id = id then some a.balance else findBalance id rest

/-! ## Call sequences on one account -/

/-- A `deposit` or `withdraw` call on a fixed account, with its amount. -/
inductive Call where
  | deposit (amount : Int)
  | withdraw (amount : Int)
deriving DecidableEq, Repr

/-- Runs the calls in order on account `c`; returns the final table, the sum of
the amounts of the deposits that returned 0 and the sum of the amounts of the
withdrawals that returned 0. -/
def runCalls (c : Int) : List Account → List Call → List Account × Int × Int
  | accs, [] => (accs, 0, 0)
  | accs, Call.deposit a :: rest =>
    let r := deposit accs c a
    let t := runCalls c r.2 rest
    (t.1, (if r.1 = 0 then a else 0) + t.2.1, t.2.2)
  | accs, Call.withdraw a :: rest =>
    let r := withdraw accs c a
    let t := runCalls c r.2 rest
    (t.1, t.2.1, (if r.1 = 0 then a else 0) + t.2.2)

/-! ## Page allocator -/

/-- Function `initialize_memory_map` of the source: `page_count` free pages
with stamp 0 and buffers not yet written, logical time 0. -/
def initialize_memory_map (page_count : Nat) (page_size : Int) : MemoryMap :=
  { pages := List.replicate page_count
      { data := none, size := page_size, is_used := 0, last_access_time := 0 },
    current_time := 0 }

/-- Loop of `allocate_page` from page index `i` on, with the running
`least_recently_used` (`none` for the initial -1) and `min_last_access_time`:
`Sum.inl i` when page `i` is the first free page (the loop returns there),
`Sum.inr lru` when the loop runs to its end. -/
def allocateScan : List MemoryPage → Nat → Option Nat → Int → Sum Nat (Option Nat)
  | [], _, lru, _ => Sum.inr lru
  | p :: rest, i, lru, minTime =>
    if p.is_used = 0 then Sum.inl i
    else if p.last_access_time < minTime then
      allocateScan rest (i + 1) (some i) p.last_access_time
    else
      allocateScan rest (i + 1) lru minTime

/-- Applies `f` to the page at index `i` (in-place write through `&pages[i]`). -/
def updatePage (f : MemoryPage → MemoryPage) : List MemoryPage → Nat → List MemoryPage
  | [], _ => []
  | p :: rest, 0 => f p :: rest
  | p :: rest, i + 1 => p :: updatePage f rest i

/-- The two writes of `allocate_page` to the chosen page. -/
def markUsed (current_time : Int) (p : MemoryPage) : MemoryPage :=
  { p with is_used := 1, last_access_time := current_time }

/-- Function `allocate_page` of the source: index of the returned page
(`none` for NULL) and the memory map afterwards. -/
def allocate_page (mm : MemoryMap) : Option Nat × MemoryMap :=
  match allocateScan mm.pages 0 none INT_MAX with
  | Sum.inl i => (some i, { mm with pages := updatePage (markUsed mm.current_time) mm.pages i })
  | Sum.inr (some lru) =>
    (some lru, { mm with pages := updatePage (markUsed mm.current_time) mm.pages lru })
  | Sum.inr none => (none, mm)

/-- Function `deallocate_page` of the source, on the page at index `i`. -/
def deallocate_page (mm : MemoryMap) (i : Nat) : MemoryMap :=
  { mm with pages :=
      updatePage (fun p => { p with is_used := 0, last_access_time := 0 }) mm.pages i }

/-- Function `update_last_access_time` of the source, on the page at index `i`. -/
def update_last_access_time (mm : MemoryMap) (i : Nat) : MemoryMap :=
  { mm with pages :=
      updatePage (fun p => { p with last_access_time := mm.current_time }) mm.pages i }

/-- Successive `allocate_page` calls, `n` of them, nothing in between: the
returned slots in call order and the memory map after the last call. -/
def allocateMany : Nat → MemoryMap → List (Option Nat) × MemoryMap
  | 0, mm => ([], mm)
  | n + 1, mm =>
    let r := allocate_page mm
    let t := allocateMany n r.2
    (r.1 :: t.1, t.2)

/-! ## Account creation -/

/-- Duplicate scan of `create_account`: some live entry has this `customer_id`. -/
def hasAccount (customer_id : Int) : List Account → Bool
  | [] => false
  | a :: rest => if a.customer_id = customer_id then true else hasAccount customer_id rest

/-- Function `create_account` of the source: return code and the globals
afterwards.  The new account is written into the allocated page's buffer,
copied from there to `accounts[account_count]`, and the page is touched. -/
def create_account (s : Bank) (customer_id initial_balance : Int) : Int × Bank :=
  if s.accounts.length ≥ MAX_ACCOUNTS then (-1, s)
  else if hasAccount customer_id s.accounts then (-2, s)
  else
    match allocate_page s.memory_map with
    | (none, mm) => (-3, { s with memory_map := mm })
    | (some i, mm) =>
      let new_account : Account := { customer_id := customer_id, balance := initial_balance }
      let mm1 : MemoryMap :=
        { mm with pages := updatePage (fun p => { p with data := some new_account }) mm.pages i }
      (0, { accounts := s.accounts ++ [new_account],
            memory_map := update_last_access_time mm1 i })

/-- A call of one of the three ledger entry points, with its arguments. -/
inductive LedgerCall where
  | create_account (customer_id initial_balance : Int)
  | deposit (account_id amount : Int)
  | withdraw (account_id amount : Int)
deriving DecidableEq, Repr

/-- Globals after one ledger call (the return code is dropped). -/
def stepLedger (s : Bank) : LedgerCall → Bank
  | LedgerCall.create_account c b => (create_account s c b).2
  | LedgerCall.deposit c a => { s with accounts := (deposit s.accounts c a).2 }
  | LedgerCall.withdraw c a => { s with accounts := (withdraw s.accounts c a).2 }

/-- Globals after a sequence of ledger calls. -/
def runLedger (s : Bank) (calls : List LedgerCall) : Bank :=
  calls.foldl stepLedger s

/-- The empty ledger (`account_count = 0`) over a given memory map. -/
def emptyBank (mm : MemoryMap) : Bank := { accounts := [], memory_map := mm }

/-- A full account table: 100 entries with ids 0..99 and balance 0. -/
def fullLedger : List Account :=
  (List.range 100).map (fun i => { customer_id := (i : Int), balance := 0 })

/-- The pool `main` sets up: 10 pages of `sizeof(Account)` = 8 bytes. -/
def mainPool : MemoryMap := initialize_memory_map 10 8

/-- The pool of the two-slot scenario: 2 pages of `sizeof(Account)` bytes. -/
def twoSlotPool : MemoryMap := initialize_memory_map 2 8

/-- The two-slot pool, all free, with the logical time at `INT_MAX`. -/
def twoSlotPoolAtMax : MemoryMap :=
  { pages := (initialize_memory_map 2 8).pages, current_time := 2147483647 }

/-- A one-page pool whose page is in use and stamped `INT_MAX`. -/
def stampedMaxPool : MemoryMap :=
  { pages := [{ data := none, size := 8, is_used := 1, last_access_time := 2147483647 }],
    current_time := 0 }

/-! ## Transaction worker -/

/-- The ledger function a transaction is bound to (`transaction_function`);
`main` passes `deposit` or `withdraw`. -/
inductive Operation where
  | deposit
  | withdraw
deriving DecidableEq, Repr

/-- Record `Transaction` of the source (the thread handle is not modelled). -/
structure Transaction where
  transaction_id : Int
  customer_id : Int
  status : Int
  transaction_function : Operation
  amount : Int
  time_quantum : Int
  remaining_time : Int
  start_time : Int
  end_time : Int
deriving DecidableEq, Repr

/-- Record `Message` of the source, fields in declaration order. -/
structure Message where
  transaction_id : Int
  customer_id : Int
  status : Int
deriving DecidableEq, Repr

/-- Call through the function pointer `transaction_function`. -/
def Operation.call : Operation → List Account → Int → Int → Int × List Account
  | Operation.deposit, accs, id, amount => Fpos.deposit accs id amount
  | Operation.withdraw, accs, id, amount => Fpos.withdraw accs id amount

/-- What one run of the worker leaves behind: the account table, the record,
and the message handed to `mq_send` (`none` when the worker exits before it). -/
structure WorkerResult where
  accounts : List Account
  transaction : Transaction
  message : Option Message
deriving DecidableEq, Repr

/-- Function `handle_transaction` of the source, run to its `pthread_exit`.
The ledger function is called first (`int result = ...`); the id range test
and the withdrawal funds test follow, the latter reading `check_balance` on the
table the call has left.  The message is built by the positional initialiser
`{transaction_id, status}`, so its second field `customer_id` receives the
status and its third field `status` is zero. -/
def handle_transaction (accounts : List Account) (t : Transaction) : WorkerResult :=
  let r := t.transaction_function.call accounts t.customer_id t.amount
  if t.customer_id < 0 ∨ t.customer_id ≥ (MAX_ACCOUNTS : Int) then
    { accounts := r.2, transaction := { t with status := -1 }, message := none }
  else if t.transaction_function = Operation.withdraw ∧ t.amount > 0 ∧
      check_balance r.2 t.customer_id < t.amount then
    { accounts := r.2, transaction := { t with status := -1 }, message := none }
  else
    let status : Int := if r.1 = 0 then 1 else -1
    { accounts := r.2, transaction := { t with status := status },
      message := some { transaction_id := t.transaction_id, customer_id := status, status := 0 } }

/-- A record as `create_transaction` fills it in: status 0, quantum 1,
remaining time 1, start and end time 0. -/
def newTransaction (transaction_id customer_id : Int) (f : Operation) (amount : Int) :
    Transaction :=
  { transaction_id := transaction_id, customer_id := customer_id, status := 0,
    transaction_function := f, amount := amount, time_quantum := 1, remaining_time := 1,
    start_time := 0, end_time := 0 }

/-! ## Transaction registry -/

/-- Capacity of the transaction table (`#define MAX_TRANSACTIONS 100`). -/
def MAX_TRANSACTIONS : Nat := 100

/-- Function `create_transaction` of the source on `transactions[0..transaction_count)`:
return code and the table afterwards.  The worker thread it starts is a step of
its own (`handle_transaction`). -/
def create_transaction (ts : List Transaction) (customer_id : Int) (f : Operation)
    (amount : Int) : Int × List Transaction :=
  if ts.length ≥ MAX_TRANSACTIONS then (-1, ts)
  else (0, ts ++ [newTransaction (wrapInt ((ts.length : Int) + 1)) customer_id f amount])

/-- Function `terminate_transaction` of the source: at the first record whose
`transaction_id` matches, a status of 0 is overwritten by -1 and the call
returns 0; without a match the call returns -1. -/
def terminate_transaction (transaction_id : Int) : List Transaction → Int × List Transaction
  | [] => (-1, [])
  | t :: rest =>
    if t.transaction_id = transaction_id then
      if t.status = 0 then (0, { t with status := -1 } :: rest) else (0, t :: rest)
    else
      let r := terminate_transaction transaction_id rest
      (r.1, t :: r.2)

/-- One run of the `for` loop of `round_robin_scheduler` over the remaining
records, with the quantum 1 of the source: the records afterwards and the
value of `completed_transactions`.  The local `current_time` only feeds
`printf` and is left out. -/
def schedulerPass : List Transaction → Int → List Transaction × Int
  | [], completed => ([], completed)
  | t :: rest, completed =>
    if t.status = 0 ∧ t.remaining_time > 0 then
      if t.remaining_time ≤ 1 then
        let r := schedulerPass rest (wrapInt (completed + 1))
        ({ t with remaining_time := 0, status := 1 } :: r.1, r.2)
      else
        let r := schedulerPass rest completed
        ({ t with remaining_time := wrapInt (t.remaining_time - 1) } :: r.1, r.2)
    else
      let r := schedulerPass rest completed
      (t :: r.1, r.2)

/-- The `while (completed_transactions < transaction_count)` loop of
`round_robin_scheduler`, at most `fuel` runs of its body: `none` when the loop
is still running after `fuel` passes. -/
def schedulerLoop : Nat → List Transaction → Int → Option (List Transaction)
  | 0, _, _ => none
  | fuel + 1, ts, completed =>
    if completed < (ts.length : Int) then
      schedulerLoop fuel (schedulerPass ts completed).1 (schedulerPass ts completed).2
    else some ts

/-- Function `round_robin_scheduler` of the source, bounded by `fuel` passes. -/
def round_robin_scheduler (fuel : Nat) (ts : List Transaction) : Option (List Transaction) :=
  schedulerLoop fuel ts 0

/-- Writes `t` over the record at index `i`. -/
def setRecord (t : Transaction) : List Transaction → Nat → List Transaction
  | [], _ => []
  | _ :: rest, 0 => t :: rest
  | x :: rest, i + 1 => x :: setRecord t rest i

/-- The account table and the transaction table together. -/
structure System where
  accounts : List Account
  transactions : List Transaction
deriving DecidableEq, Repr

/-- The steps that change the transaction table: `create_transaction`,
`terminate_transaction`, `round_robin_scheduler` (as a whole run that returns
within `fuel` passes, and pass by pass with any value of its counter), and one
run of the worker of the record at index `i`. -/
inductive SystemCall where
  | create_transaction (customer_id : Int) (f : Operation) (amount : Int)
  | terminate_transaction (transaction_id : Int)
  | scheduler_pass (completed : Int)
  | round_robin_scheduler (fuel : Nat)
  | worker (i : Nat)
deriving DecidableEq, Repr

/-- State after one step.  A scheduler run that has not returned within `fuel`
passes contributes no state of its own; its pass boundaries are the
`scheduler_pass` steps. -/
def stepSystem (s : System) : SystemCall → System
  | SystemCall.create_transaction c f a =>
    { s with transactions := (create_transaction s.transactions c f a).2 }
  | SystemCall.terminate_transaction t =>
    { s with transactions := (terminate_transaction t s.transactions).2 }
  | SystemCall.scheduler_pass completed =>
    { s with transactions := (schedulerPass s.transactions completed).1 }
  | SystemCall.round_robin_scheduler fuel =>
    match round_robin_scheduler fuel s.transactions with
    | some ts => { s with transactions := ts }
    | none => s
  | SystemCall.worker i =>
    match s.transactions[i]? with
    | some t =>
      { accounts := (handle_transaction s.accounts t).accounts,
        transactions := setRecord (handle_transaction s.accounts t).transaction s.transactions i }
    | none => s

/-- State after a sequence of steps. -/
def runSystem (s : System) (calls : List SystemCall) : System :=
  calls.foldl stepSystem s

/-! ## Deposits in sequence -/

/-- The account table after `deposit(c, a)` for each `a` of the list, in list order. -/
def depositAll (c : Int) (accs : List Account) (amounts : List Int) : List Account :=
  amounts.foldl (fun l a => (deposit l c a).2) accs

/-- Writes the balance `v` into the first entry whose `customer_id` is `c`. -/
def setBalance (c v : Int) : List Account → List Account
  | [] => []
  | a :: rest =>
    if a.customer_id = c then { a with balance := v } :: rest else a :: setBalance c v rest

/-- A full transaction table: 100 records with ids 1..100. -/
def fullRegistry : List Transaction :=
  (List.range 100).map (fun i : Nat => newTransaction ((i : Int) + 1) 7 Operation.deposit 1)

/-- A record whose worker has already marked it Completed. -/
def completedRecord : Transaction :=
  { newTransaction 1 7 Operation.deposit 20 with status := 1 }

/-- Number of records the scheduler still has to complete: status 0 and
`remaining_time > 0`. -/
def liveCount : List Transaction → Int
  | [] => 0
  | t :: rest => (if t.status = 0 ∧ t.remaining_time > 0 then 1 else 0) + liveCount rest

/-! ## Theorems -/

/-! ### Machine integers -/

theorem wrapInt_of_inRange (x : Int) (h0 : INT_MIN ≤ x) (h1 : x ≤ INT_MAX) : wrapInt x = x := by
  unfold wrapInt; unfold INT_MIN at h0; unfold INT_MAX at h1; omega

theorem wrapInt_add_left (x y : Int) : wrapInt (wrapInt x + y) = wrapInt (x + y) := by
  unfold wrapInt; omega

theorem wrapInt_range (x : Int) : INT_MIN ≤ wrapInt x ∧ wrapInt x ≤ INT_MAX := by
  unfold wrapInt INT_MIN INT_MAX; omega

/-! ### Scans of the ledger -/

theorem depositScan_of_find (c amount : Int) (accs : List Account) (b : Int)
    (h : findBalance c accs = some b) :
    (depositScan c amount accs).1 = 0 ∧
      findBalance c (depositScan c amount accs).2 = some (wrapInt (b + amount)) := by
  induction accs with
  | nil => simp [findBalance] at h
  | cons a rest ih =>
    by_cases hc : a.customer_id = c
    · simp [findBalance, hc] at h
      simp [depositScan, findBalance, hc, h]
    · simp [findBalance, hc] at h
      simpa [depositScan, findBalance, hc] using ih h

theorem withdrawScan_of_find_ge (c amount : Int) (accs : List Account) (b : Int)
    (h : findBalance c accs = some b) (hge : amount ≤ b) :
    (withdrawScan c amount accs).1 = 0 ∧
      findBalance c (withdrawScan c amount accs).2 = some (wrapInt (b - amount)) := by
  induction accs with
  | nil => simp [findBalance] at h
  | cons a rest ih =>
    by_cases hc : a.customer_id = c
    · simp [findBalance, hc] at h
      subst h
      simp [withdrawScan, findBalance, hc, hge]
    · simp [findBalance, hc] at h
      simpa [withdrawScan, findBalance, hc] using ih h

theorem withdrawScan_of_find_lt (c amount : Int) (accs : List Account) (b : Int)
    (h : findBalance c accs = some b) (hlt : b < amount) :
    withdrawScan c amount accs = (-2, accs) := by
  induction accs with
  | nil => simp [findBalance] at h
  | cons a rest ih =>
    by_cases hc : a.customer_id = c
    · simp [findBalance, hc] at h
      subst h
      simp [withdrawScan, hc, not_le.mpr hlt]
    · simp [findBalance, hc] at h
      simp [withdrawScan, hc, ih h]

theorem withdrawScan_of_find_none (c amount : Int) (accs : List Account)
    (h : findBalance c accs = none) :
    withdrawScan c amount accs = (-1, accs) := by
  induction accs with
  | nil => rfl
  | cons a rest ih =>
    by_cases hc : a.customer_id = c
    · simp [findBalance, hc] at h
    · simp [findBalance, hc] at h
      simp [withdrawScan, hc, ih h]

theorem depositScan_of_find_none (c amount : Int) (accs : List Account)
    (h : findBalance c accs = none) :
    depositScan c amount accs = (-1, accs) := by
  induction accs with
  | nil => rfl
  | cons a rest ih =>
    by_cases hc : a.customer_id = c
    · simp [findBalance, hc] at h
    · simp [findBalance, hc] at h
      simp [depositScan, hc, ih h]

/-! ### Call sequences on one account -/

theorem runCalls_deposits_nonneg (c : Int) (calls : List Call) :
    ∀ accs : List Account, 0 ≤ (runCalls c accs calls).2.1 := by
  induction calls with
  | nil => intro accs; simp [runCalls]
  | cons k rest ih =>
    intro accs
    cases k with
    | deposit a =>
      have h := ih (deposit accs c a).2
      by_cases ha : a < 0
      · simpa [runCalls, deposit, ha] using ih accs
      · simp only [runCalls]
        split <;> omega
    | withdraw a =>
      simpa [runCalls] using ih (withdraw accs c a).2

theorem runCalls_balance_wrap (c : Int) (calls : List Call) :
    ∀ (accs : List Account) (b : Int), findBalance c accs = some b →
      INT_MIN ≤ b → b ≤ INT_MAX →
      findBalance c (runCalls c accs calls).1 =
        some (wrapInt (b + (runCalls c accs calls).2.1 - (runCalls c accs calls).2.2)) := by
  induction calls with
  | nil =>
    intro accs b h h0 h1
    simp [runCalls, h, wrapInt_of_inRange b h0 h1]
  | cons k rest ih =>
    intro accs b h h0 h1
    cases k with
    | deposit a =>
      by_cases ha : a < 0
      · simpa [runCalls, deposit, ha] using ih accs b h h0 h1
      · obtain ⟨hr, hf⟩ := depositScan_of_find c a accs b h
        have hw := wrapInt_range (b + a)
        have := ih (depositScan c a accs).2 _ hf hw.1 hw.2
        simp only [runCalls, deposit, ha, if_false, hr, if_true]
        rw [this]
        congr 1
        unfold wrapInt; omega
    | withdraw a =>
      by_cases ha : a < 0
      · simpa [runCalls, withdraw, ha] using ih accs b h h0 h1
      · by_cases hge : a ≤ b
        · obtain ⟨hr, hf⟩ := withdrawScan_of_find_ge c a accs b h hge
          have hw := wrapInt_range (b - a)
          have := ih (withdrawScan c a accs).2 _ hf hw.1 hw.2
          simp only [runCalls, withdraw, ha, if_false, hr, if_true]
          rw [this]
          congr 1
          unfold wrapInt; omega
        · have hs := withdrawScan_of_find_lt c a accs b h (not_le.mp hge)
          have := ih accs b h h0 h1
          simp only [runCalls, withdraw, ha, if_false, hs]
          rw [this]
          simp

theorem runCalls_balance_exact (c : Int) (calls : List Call) :
    ∀ (accs : List Account) (b : Int), findBalance c accs = some b →
      0 ≤ b → b + (runCalls c accs calls).2.1 ≤ INT_MAX →
      findBalance c (runCalls c accs calls).1 =
        some (b + (runCalls c accs calls).2.1 - (runCalls c accs calls).2.2) := by
  induction calls with
  | nil =>
    intro accs b h _ _
    simp [runCalls, h]
  | cons k rest ih =>
    intro accs b h h0 h1
    cases k with
    | deposit a =>
      by_cases ha : a < 0
      · simp only [runCalls, deposit, ha, if_true] at h1 ⊢
        simpa using ih accs b h h0 (by simpa using h1)
      · obtain ⟨hr, hf⟩ := depositScan_of_find c a accs b h
        have hd := runCalls_deposits_nonneg c rest (depositScan c a accs).2
        simp only [runCalls, deposit, ha, if_false, hr, if_true] at h1 ⊢
        have hwe : wrapInt (b + a) = b + a :=
          wrapInt_of_inRange _ (by unfold INT_MIN; omega) (by omega)
        rw [hwe] at hf
        have := ih (depositScan c a accs).2 (b + a) hf (by omega) (by omega)
        rw [this]
        congr 1
        omega
    | withdraw a =>
      by_cases ha : a < 0
      · simp only [runCalls, withdraw, ha, if_true] at h1 ⊢
        simpa using ih accs b h h0 (by simpa using h1)
      · by_cases hge : a ≤ b
        · obtain ⟨hr, hf⟩ := withdrawScan_of_find_ge c a accs b h hge
          have hd := runCalls_deposits_nonneg c rest (withdrawScan c a accs).2
          simp only [runCalls, withdraw, ha, if_false, hr, if_true] at h1 ⊢
          have hwe : wrapInt (b - a) = b - a :=
            wrapInt_of_inRange _ (by unfold INT_MIN; omega) (by omega)
          rw [hwe] at hf
          have := ih (withdrawScan c a accs).2 (b - a) hf (by omega) (by omega)
          rw [this]
          congr 1
          omega
        · have hs := withdrawScan_of_find_lt c a accs b h (not_le.mp hge)
          simp only [runCalls, withdraw, ha, if_false, hs] at h1 ⊢
          have := ih accs b h h0 h1
          rw [this]
          simp

/-! ### C1 -/

/-- C1, as stated, fails: on the ledger holding account 1 with balance
`INT_MAX`, the call `deposit(1, 1)` returns 0 and the 32-bit sum wraps, so the
final balance is `INT_MIN` and not `INT_MAX + 1`. -/
theorem deposit_sum_overflow_counterexample :
    findBalance 1 [⟨1, 2147483647⟩] = some 2147483647 ∧
    deposit [⟨1, 2147483647⟩] 1 1 = (0, [⟨1, -2147483648⟩]) ∧
    runCalls 1 [⟨1, 2147483647⟩] [Call.deposit 1] = ([⟨1, -2147483648⟩], 1, 0) ∧
    findBalance 1 (runCalls 1 [⟨1, 2147483647⟩] [Call.deposit 1]).1
      ≠ some (2147483647 + 1 - 0) := by
  decide

/-- C1 (amended): for every ledger whose account `c` holds a balance `b` with
`0 ≤ b ≤ INT_MAX` and every finite sequence of `deposit(c, a)` and
`withdraw(c, a)` calls, the final balance of `c` is `b` plus the amounts of the
deposits that returned 0 minus the amounts of the withdrawals that returned 0,
reduced to the 32-bit `int` range; and it is exactly that number whenever `b`
plus the successful deposits does not exceed `INT_MAX`. -/
theorem deposit_withdraw_final_balance (c : Int) (accs : List Account) (b : Int)
    (calls : List Call) (hfind : findBalance c accs = some b)
    (hb0 : 0 ≤ b) (hb1 : b ≤ INT_MAX) :
    findBalance c (runCalls c accs calls).1 =
        some (wrapInt (b + (runCalls c accs calls).2.1 - (runCalls c accs calls).2.2)) ∧
    (b + (runCalls c accs calls).2.1 ≤ INT_MAX →
      findBalance c (runCalls c accs calls).1 =
        some (b + (runCalls c accs calls).2.1 - (runCalls c accs calls).2.2)) :=
  ⟨runCalls_balance_wrap c calls accs b hfind (by unfold INT_MIN; omega) hb1,
   runCalls_balance_exact c calls accs b hfind hb0⟩

/-- Witness for C1 (amended): account 7 with balance 50, then deposit 20, a
refused withdrawal of 100, a withdrawal of 30 and a refused deposit of -5. -/
theorem deposit_withdraw_final_balance_witness :
    findBalance 7 [⟨3, 10⟩, ⟨7, 50⟩] = some 50 ∧
    runCalls 7 [⟨3, 10⟩, ⟨7, 50⟩]
      [Call.deposit 20, Call.withdraw 100, Call.withdraw 30, Call.deposit (-5)]
      = ([⟨3, 10⟩, ⟨7, 40⟩], 20, 30) ∧
    findBalance 7 (runCalls 7 [⟨3, 10⟩, ⟨7, 50⟩]
      [Call.deposit 20, Call.withdraw 100, Call.withdraw 30, Call.deposit (-5)]).1
      = some (50 + (runCalls 7 [⟨3, 10⟩, ⟨7, 50⟩]
          [Call.deposit 20, Call.withdraw 100, Call.withdraw 30, Call.deposit (-5)]).2.1
        - (runCalls 7 [⟨3, 10⟩, ⟨7, 50⟩]
          [Call.deposit 20, Call.withdraw 100, Call.withdraw 30, Call.deposit (-5)]).2.2) :=
  ⟨by decide, by decide,
   (deposit_withdraw_final_balance 7 [⟨3, 10⟩, ⟨7, 50⟩] 50
      [Call.deposit 20, Call.withdraw 100, Call.withdraw 30, Call.deposit (-5)]
      (by decide) (by decide) (by decide)).2 (by decide)⟩

/-! ### C2 -/

/-- C2, as stated, fails in three ways.  On the empty ledger
`check_balance(1)` is -1, the amount 0 exceeds it, and `withdraw(1, 0)` returns
-1 (not found), not -2.  For the account with id -1 and balance 100,
`check_balance(-1)` is -4, the amount 5 exceeds it, and `withdraw(-1, 5)`
returns 0 and changes the balance to 95.  For an account holding -10 the amount
-5 exceeds the balance and `withdraw` returns -4. -/
theorem withdraw_above_check_balance_counterexample :
    ((0 : Int) > check_balance [] 1 ∧ withdraw [] 1 0 = (-1, []) ∧ (withdraw [] 1 0).1 ≠ -2) ∧
    ((5 : Int) > check_balance [⟨-1, 100⟩] (-1) ∧
      withdraw [⟨-1, 100⟩] (-1) 5 = (0, [⟨-1, 95⟩])) ∧
    ((-5 : Int) > check_balance [⟨1, -10⟩] 1 ∧
      withdraw [⟨1, -10⟩] 1 (-5) = (-4, [⟨1, -10⟩])) := by
  decide

/-- C2 (amended): for every ledger, every id held by an account (the first
entry with that id having stored balance `b`) and every amount with
`amount ≥ 0` and `amount > b`, `withdraw(id, amount)` returns -2 and leaves the
whole account table, hence every balance, unchanged. -/
theorem withdraw_insufficient_funds (accs : List Account) (id amount b : Int)
    (hfind : findBalance id accs = some b) (hamt : 0 ≤ amount) (hlt : b < amount) :
    withdraw accs id amount = (-2, accs) := by
  have hs := withdrawScan_of_find_lt id amount accs b hfind hlt
  simp [withdraw, not_lt.mpr hamt, hs]

/-- Witness for C2 (amended): withdrawing 100 from account 7 holding 50. -/
theorem withdraw_insufficient_funds_witness :
    findBalance 7 [⟨3, 10⟩, ⟨7, 50⟩] = some 50 ∧
    withdraw [⟨3, 10⟩, ⟨7, 50⟩] 7 100 = (-2, [⟨3, 10⟩, ⟨7, 50⟩]) :=
  ⟨by decide, withdraw_insufficient_funds [⟨3, 10⟩, ⟨7, 50⟩] 7 100 50
    (by decide) (by decide) (by decide)⟩

/-! ### C4 -/

/-- C4: for every ledger, every id and every amount below 0, `deposit` and
`withdraw` both return -4 and leave the account table (every balance) as it was. -/
theorem negative_amount_rejected (accs : List Account) (id amount : Int) (hneg : amount < 0) :
    deposit accs id amount = (-4, accs) ∧ withdraw accs id amount = (-4, accs) := by
  simp [deposit, withdraw, hneg]

/-- Witness for C4: `deposit(7, -5)` and `withdraw(7, -5)`, and the same on an
id that no account has. -/
theorem negative_amount_rejected_witness :
    (deposit [⟨7, 50⟩] 7 (-5) = (-4, [⟨7, 50⟩]) ∧ withdraw [⟨7, 50⟩] 7 (-5) = (-4, [⟨7, 50⟩])) ∧
    (deposit [⟨7, 50⟩] 8 (-5) = (-4, [⟨7, 50⟩]) ∧ withdraw [⟨7, 50⟩] 8 (-5) = (-4, [⟨7, 50⟩])) :=
  ⟨negative_amount_rejected [⟨7, 50⟩] 7 (-5) (by decide),
   negative_amount_rejected [⟨7, 50⟩] 8 (-5) (by decide)⟩

/-! ### Account creation -/

theorem hasAccount_iff (c : Int) (accs : List Account) :
    hasAccount c accs = true ↔ ∃ a ∈ accs, a.customer_id = c := by
  induction accs with
  | nil => simp [hasAccount]
  | cons a rest ih =>
    by_cases hc : a.customer_id = c
    · simp [hasAccount, hc]
    · simp [hasAccount, hc, ih]

theorem hasAccount_false_iff (c : Int) (accs : List Account) :
    hasAccount c accs = false ↔ c ∉ accs.map Account.customer_id := by
  rw [← Bool.not_eq_true, hasAccount_iff]
  simp

theorem depositScan_ids (c amount : Int) (accs : List Account) :
    (depositScan c amount accs).2.map Account.customer_id = accs.map Account.customer_id := by
  induction accs with
  | nil => rfl
  | cons a rest ih =>
    by_cases hc : a.customer_id = c
    · simp [depositScan, hc]
    · simp [depositScan, hc, ih]

theorem withdrawScan_ids (c amount : Int) (accs : List Account) :
    (withdrawScan c amount accs).2.map Account.customer_id = accs.map Account.customer_id := by
  induction accs with
  | nil => rfl
  | cons a rest ih =>
    by_cases hc : a.customer_id = c
    · by_cases hge : a.balance ≥ amount
      · simp [withdrawScan, hc, hge]
      · simp [withdrawScan, hc, hge]
    · simp [withdrawScan, hc, ih]

theorem deposit_ids (c amount : Int) (accs : List Account) :
    (deposit accs c amount).2.map Account.customer_id = accs.map Account.customer_id := by
  unfold deposit
  split
  · rfl
  · exact depositScan_ids c amount accs

theorem withdraw_ids (c amount : Int) (accs : List Account) :
    (withdraw accs c amount).2.map Account.customer_id = accs.map Account.customer_id := by
  unfold withdraw
  split
  · rfl
  · exact withdrawScan_ids c amount accs

/-- The account table after `create_account`: unchanged, or one new entry
appended below the capacity and with an id that was not there. -/
theorem create_account_accounts (s : Bank) (c b : Int) :
    (create_account s c b).2.accounts = s.accounts ∨
    ((create_account s c b).2.accounts = s.accounts ++ [⟨c, b⟩] ∧
      s.accounts.length < MAX_ACCOUNTS ∧ hasAccount c s.accounts = false) := by
  unfold create_account
  by_cases hcap : s.accounts.length ≥ MAX_ACCOUNTS
  · simp [hcap]
  · by_cases hdup : hasAccount c s.accounts = true
    · simp [hcap, hdup]
    · simp only [hcap, hdup, if_false]
      cases hall : allocate_page s.memory_map with
      | mk r mm =>
        cases r with
        | none => simp
        | some i =>
          right
          exact ⟨rfl, not_le.mp hcap, by simp⟩

/-- The ledger invariant of C6: ids pairwise distinct, table within capacity. -/
theorem stepLedger_ids_unique (s : Bank) (k : LedgerCall)
    (h : (s.accounts.map Account.customer_id).Nodup ∧ s.accounts.length ≤ MAX_ACCOUNTS) :
    ((stepLedger s k).accounts.map Account.customer_id).Nodup ∧
      (stepLedger s k).accounts.length ≤ MAX_ACCOUNTS := by
  cases k with
  | create_account c b =>
    rcases create_account_accounts s c b with he | ⟨he, hlen, hno⟩
    · simpa [stepLedger, he] using h
    · have hnot := (hasAccount_false_iff c s.accounts).mp hno
      simp only [stepLedger, he, List.map_append, List.map_cons, List.map_nil,
        List.length_append, List.length_singleton]
      refine ⟨?_, by omega⟩
      rw [List.nodup_append]
      refine ⟨h.1, List.nodup_singleton c, ?_⟩
      intro x hx hx2
      simp only [List.mem_singleton] at hx2
      subst hx2
      exact hnot hx
  | deposit c a =>
    have hl := congrArg List.length (deposit_ids c a s.accounts)
    simp only [List.length_map] at hl
    simpa [stepLedger, deposit_ids, hl] using h
  | withdraw c a =>
    have hl := congrArg List.length (withdraw_ids c a s.accounts)
    simp only [List.length_map] at hl
    simpa [stepLedger, withdraw_ids, hl] using h

theorem runLedger_ids_unique (calls : List LedgerCall) :
    ∀ s : Bank,
      ((s.accounts.map Account.customer_id).Nodup ∧ s.accounts.length ≤ MAX_ACCOUNTS) →
      (((runLedger s calls).accounts.map Account.customer_id).Nodup ∧
        (runLedger s calls).accounts.length ≤ MAX_ACCOUNTS) := by
  induction calls with
  | nil => intro s h; simpa [runLedger] using h
  | cons k rest ih =>
    intro s h
    have := ih (stepLedger s k) (stepLedger_ids_unique s k h)
    simpa [runLedger] using this

/-! ### C3 -/

set_option maxRecDepth 100000 in
/-- C3, as stated, fails: when the table already holds 100 accounts (created
one after the other over the 10-page pool of `main`), one of them with id 0,
`create_account(0, 5)` returns -1 (capacity), not -2: the capacity test comes
first. -/
theorem create_account_duplicate_full_counterexample :
    (runLedger (emptyBank mainPool)
      ((List.range 100).map (fun i => LedgerCall.create_account (i : Int) 0))).accounts
      = fullLedger ∧
    fullLedger.length = 100 ∧
    hasAccount 0 fullLedger = true ∧
    (create_account { accounts := fullLedger, memory_map := mainPool } 0 5).1 = -1 ∧
    (create_account { accounts := fullLedger, memory_map := mainPool } 0 5).1 ≠ -2 := by
  decide

/-- C3 (amended): for every ledger and allocator state in which some account
already has `customer_id` `c`, `create_account(c, b)` returns -2 when fewer
than 100 accounts exist and -1 when the table is full, and in both cases leaves
the account table, `account_count` and the whole memory map (every page's
`is_used` and `last_access_time`) unchanged. -/
theorem create_account_duplicate (s : Bank) (c b : Int)
    (hdup : ∃ a ∈ s.accounts, a.customer_id = c) :
    (s.accounts.length < MAX_ACCOUNTS → create_account s c b = (-2, s)) ∧
    (MAX_ACCOUNTS ≤ s.accounts.length → create_account s c b = (-1, s)) := by
  have hd := (hasAccount_iff c s.accounts).mpr hdup
  constructor
  · intro hlt
    simp [create_account, not_le.mpr hlt, hd]
  · intro hge
    simp [create_account, hge]

/-- Witness for C3 (amended): creating customer 1 a second time in a 2-slot
pool whose two slots are still free. -/
theorem create_account_duplicate_witness :
    (∃ a ∈ [(⟨1, 50⟩ : Account)], a.customer_id = 1) ∧
    create_account { accounts := [⟨1, 50⟩], memory_map := initialize_memory_map 2 8 } 1 70
      = (-2, { accounts := [⟨1, 50⟩], memory_map := initialize_memory_map 2 8 }) :=
  ⟨⟨⟨1, 50⟩, by decide, by decide⟩,
   (create_account_duplicate
      { accounts := [⟨1, 50⟩], memory_map := initialize_memory_map 2 8 } 1 70
      ⟨⟨1, 50⟩, by decide, by decide⟩).1 (by decide)⟩

/-! ### C5 -/

/-- C5 fails on the code: from the empty ledger over the pool of `main`,
`create_account(1, -5)` returns 0 and stores the balance -5. -/
theorem create_account_negative_balance :
    (create_account (emptyBank mainPool) 1 (-5)).1 = 0 ∧
    (runLedger (emptyBank mainPool) [LedgerCall.create_account 1 (-5)]).accounts = [⟨1, -5⟩] ∧
    ¬ (∀ a ∈ (runLedger (emptyBank mainPool) [LedgerCall.create_account 1 (-5)]).accounts,
        0 ≤ a.balance) := by
  decide

/-! ### C6 -/

/-- C6: in every state reached from the empty ledger (over any memory map) by
any sequence of `create_account`, `deposit` and `withdraw` calls, the
`customer_id`s of `accounts[0..account_count)` are pairwise distinct and
`account_count` is at most `MAX_ACCOUNTS` = 100. -/
theorem reachable_ids_unique_and_bounded (mm : MemoryMap) (calls : List LedgerCall) :
    ((runLedger (emptyBank mm) calls).accounts.map Account.customer_id).Nodup ∧
    (runLedger (emptyBank mm) calls).accounts.length ≤ 100 :=
  runLedger_ids_unique calls (emptyBank mm) (by simp [emptyBank, MAX_ACCOUNTS])

/-! ### Page allocator -/

theorem allocateScan_first_free (us : List MemoryPage) (f : MemoryPage) (rest : List MemoryPage)
    (hus : ∀ p ∈ us, p.is_used ≠ 0) (hf : f.is_used = 0) :
    ∀ (i : Nat) (lru : Option Nat) (minTime : Int),
      allocateScan (us ++ f :: rest) i lru minTime = Sum.inl (i + us.length) := by
  induction us with
  | nil => intro i lru minTime; simp [allocateScan, hf]
  | cons u us ih =>
    intro i lru minTime
    have hu : u.is_used ≠ 0 := hus u (List.mem_cons_self u us)
    have ih2 := ih (fun p hp => hus p (List.mem_cons_of_mem u hp))
    simp only [List.cons_append, allocateScan, hu, if_false, List.length_cons]
    split
    · exact (ih2 _ _ _).trans (by congr 1; omega)
    · exact (ih2 _ _ _).trans (by congr 1; omega)

theorem updatePage_append (g : MemoryPage → MemoryPage) (us : List MemoryPage) (p : MemoryPage)
    (rest : List MemoryPage) :
    updatePage g (us ++ p :: rest) us.length = us ++ g p :: rest := by
  induction us with
  | nil => rfl
  | cons u us ih => simp [updatePage, ih]

theorem allocateScan_keeps_lru (pages : List MemoryPage) :
    ∀ (i : Nat) (lru : Option Nat) (minTime : Int),
      (∀ p ∈ pages, p.is_used ≠ 0 ∧ minTime ≤ p.last_access_time) →
      allocateScan pages i lru minTime = Sum.inr lru := by
  induction pages with
  | nil => intro i lru minTime _; rfl
  | cons p rest ih =>
    intro i lru minTime h
    have hp := h p (List.mem_cons_self p rest)
    have hlt : ¬ p.last_access_time < minTime := not_lt.mpr hp.2
    simp only [allocateScan, hp.1, hlt, if_false]
    exact ih (i + 1) lru minTime (fun q hq => h q (List.mem_cons_of_mem p hq))

theorem allocateScan_some_ne_none (pages : List MemoryPage) :
    ∀ (i l : Nat) (minTime : Int), allocateScan pages i (some l) minTime ≠ Sum.inr none := by
  induction pages with
  | nil => intro i l minTime; simp [allocateScan]
  | cons p rest ih =>
    intro i l minTime
    simp only [allocateScan]
    split
    · simp
    · split
      · exact ih (i + 1) i p.last_access_time
      · exact ih (i + 1) l minTime

theorem allocateScan_none_iff (pages : List MemoryPage) :
    ∀ (i : Nat) (minTime : Int),
      allocateScan pages i none minTime = Sum.inr none ↔
        ∀ p ∈ pages, p.is_used ≠ 0 ∧ minTime ≤ p.last_access_time := by
  induction pages with
  | nil => intro i minTime; simp [allocateScan]
  | cons p rest ih =>
    intro i minTime
    simp only [allocateScan]
    by_cases hu : p.is_used = 0
    · simp [hu]
    · by_cases hlt : p.last_access_time < minTime
      · simp only [hu, hlt, if_false, if_true]
        constructor
        · intro h; exact absurd h (allocateScan_some_ne_none rest (i + 1) i p.last_access_time)
        · intro h
          have := (h p (List.mem_cons_self p rest)).2
          omega
      · simp only [hu, hlt, if_false]
        rw [ih (i + 1) minTime]
        constructor
        · intro h q hq
          rcases List.mem_cons.mp hq with rfl | hq
          · exact ⟨hu, not_lt.mp hlt⟩
          · exact h q hq
        · intro h q hq
          exact h q (List.mem_cons_of_mem p hq)

theorem allocate_page_none_iff (mm : MemoryMap) :
    (allocate_page mm).1 = none ↔
      ∀ p ∈ mm.pages, p.is_used ≠ 0 ∧ INT_MAX ≤ p.last_access_time := by
  rw [← allocateScan_none_iff mm.pages 0 INT_MAX]
  unfold allocate_page
  cases h : allocateScan mm.pages 0 none INT_MAX with
  | inl i => simp
  | inr lru =>
    cases lru with
    | none => simp
    | some l => simp

theorem allocate_page_none_unchanged (mm : MemoryMap) (h : (allocate_page mm).1 = none) :
    (allocate_page mm).2 = mm := by
  unfold allocate_page at h ⊢
  cases hs : allocateScan mm.pages 0 none INT_MAX with
  | inl i => simp [hs] at h
  | inr lru =>
    cases lru with
    | none => rfl
    | some l => simp [hs] at h

/-- One `allocate_page` call on a pool made of used pages followed by a free
page: the free page's index is returned and only that page is written. -/
theorem allocate_page_first_free (us : List MemoryPage) (f : MemoryPage) (rest : List MemoryPage)
    (t : Int) (hus : ∀ p ∈ us, p.is_used ≠ 0) (hf : f.is_used = 0) :
    allocate_page { pages := us ++ f :: rest, current_time := t } =
      (some us.length, { pages := us ++ markUsed t f :: rest, current_time := t }) := by
  have hs := allocateScan_first_free us f rest hus hf 0 none INT_MAX
  simp only [Nat.zero_add] at hs
  simp [allocate_page, hs, updatePage_append]

/-- As many `allocate_page` calls as there are free pages behind a used prefix. -/
theorem allocateMany_free_suffix (t : Int) (fs : List MemoryPage) :
    ∀ us : List MemoryPage, (∀ p ∈ us, p.is_used ≠ 0) → (∀ p ∈ fs, p.is_used = 0) →
      allocateMany fs.length { pages := us ++ fs, current_time := t } =
        ((List.range' us.length fs.length).map some,
         { pages := us ++ fs.map (markUsed t), current_time := t }) := by
  induction fs with
  | nil => intro us _ _; simp [allocateMany]
  | cons f fs ih =>
    intro us hus hfs
    have hf : f.is_used = 0 := hfs f (List.mem_cons_self f fs)
    have h1 := allocate_page_first_free us f fs t hus hf
    have hus2 : ∀ p ∈ us ++ [markUsed t f], p.is_used ≠ 0 := by
      intro p hp
      rcases List.mem_append.mp hp with hp | hp
      · exact hus p hp
      · simp only [List.mem_singleton] at hp
        subst hp
        simp [markUsed]
    have h2 := ih (us ++ [markUsed t f]) hus2 (fun p hp => hfs p (List.mem_cons_of_mem f hp))
    simp only [List.append_assoc, List.singleton_append, List.length_append,
      List.length_singleton] at h2
    simp only [List.length_cons, allocateMany, h1, h2, List.range'_succ, List.map_cons]

/-- One `allocate_page` call on a non-empty pool whose pages are all in use
with the same stamp `t < INT_MAX`: page 0 is reclaimed. -/
theorem allocate_page_all_used (p : MemoryPage) (rest : List MemoryPage) (t : Int)
    (ht : t < INT_MAX) :
    allocate_page { pages := (p :: rest).map (markUsed t), current_time := t } =
      (some 0, { pages := (p :: rest).map (markUsed t), current_time := t }) := by
  have hk := allocateScan_keeps_lru (rest.map (markUsed t)) 1 (some 0) t (by
    intro q hq
    obtain ⟨q0, _, rfl⟩ := List.mem_map.mp hq
    simp [markUsed])
  simp only [allocate_page, List.map_cons, allocateScan, markUsed, ht, if_true] at hk ⊢
  simp [hk, updatePage]
  rfl

/-! ### C7 -/

/-- C7, as stated, fails: on the two-slot pool that is all free with the
logical time at `INT_MAX`, the first two `allocate_page` calls return slots 0
and 1 and stamp them `INT_MAX`; in the third call no stamp is below the initial
`min_last_access_time`, `least_recently_used` stays -1 and NULL is returned. -/
theorem allocate_third_call_null_counterexample :
    1 ≤ twoSlotPoolAtMax.pages.length ∧
    (∀ p ∈ twoSlotPoolAtMax.pages, p.is_used = 0) ∧
    (allocateMany 2 twoSlotPoolAtMax).1 = [some 0, some 1] ∧
    (allocate_page (allocateMany 2 twoSlotPoolAtMax).2).1 = none ∧
    (allocate_page (allocateMany 2 twoSlotPoolAtMax).2).1 ≠ some 0 := by
  decide

/-- C7 (amended): on a pool of `N ≥ 1` pages that are all free and whose
logical time is below `INT_MAX` (it is 0 in every pool `initialize_memory_map`
builds and is never advanced), `N` successive `allocate_page` calls return the
slots `0, …, N-1` (pairwise distinct); the next call returns slot 0, whose
`last_access_time` is at that moment the minimum over all slots, and leaves it
in use and stamped with the current logical time. -/
theorem allocate_fills_then_reclaims_oldest (mm : MemoryMap)
    (hN : 1 ≤ mm.pages.length) (hfree : ∀ p ∈ mm.pages, p.is_used = 0)
    (ht : mm.current_time < INT_MAX) :
    (allocateMany mm.pages.length mm).1 = (List.range mm.pages.length).map some ∧
    (allocateMany mm.pages.length mm).1.Nodup ∧
    (allocate_page (allocateMany mm.pages.length mm).2).1 = some 0 ∧
    (∃ p0, (allocateMany mm.pages.length mm).2.pages[0]? = some p0 ∧
      ∀ p ∈ (allocateMany mm.pages.length mm).2.pages,
        p0.last_access_time ≤ p.last_access_time) ∧
    (∃ q, (allocate_page (allocateMany mm.pages.length mm).2).2.pages[0]? = some q ∧
      q.is_used = 1 ∧ q.last_access_time = mm.current_time) := by
  obtain ⟨pages, t⟩ := mm
  cases pages with
  | nil => simp at hN
  | cons p rest =>
    have hm := allocateMany_free_suffix t (p :: rest) [] (by simp) hfree
    simp only [List.nil_append, List.length_nil] at hm
    have hall := allocate_page_all_used p rest t ht
    have hr : (List.range' 0 (p :: rest).length).map some
        = (List.range (p :: rest).length).map some := by
      rw [List.range_eq_range']
    simp only [hm, hall, hr]
    refine ⟨trivial, ?_, trivial, ?_, ?_⟩
    · exact (List.nodup_range _).map (Option.some_injective _)
    · refine ⟨markUsed t p, by simp, ?_⟩
      intro q hq
      obtain ⟨q0, _, rfl⟩ := List.mem_map.mp hq
      simp [markUsed]
    · exact ⟨markUsed t p, by simp, by simp [markUsed], by simp [markUsed]⟩

/-- Witness for C7 (amended): the two-slot pool as `initialize_memory_map` builds it. -/
theorem allocate_fills_then_reclaims_oldest_witness :
    (1 ≤ twoSlotPool.pages.length ∧ (∀ p ∈ twoSlotPool.pages, p.is_used = 0) ∧
      twoSlotPool.current_time < INT_MAX) ∧
    ((allocateMany twoSlotPool.pages.length twoSlotPool).1
        = (List.range twoSlotPool.pages.length).map some ∧
    (allocateMany twoSlotPool.pages.length twoSlotPool).1.Nodup ∧
    (allocate_page (allocateMany twoSlotPool.pages.length twoSlotPool).2).1 = some 0 ∧
    (∃ p0, (allocateMany twoSlotPool.pages.length twoSlotPool).2.pages[0]? = some p0 ∧
      ∀ p ∈ (allocateMany twoSlotPool.pages.length twoSlotPool).2.pages,
        p0.last_access_time ≤ p.last_access_time) ∧
    (∃ q, (allocate_page (allocateMany twoSlotPool.pages.length twoSlotPool).2).2.pages[0]?
        = some q ∧ q.is_used = 1 ∧ q.last_access_time = twoSlotPool.current_time)) :=
  ⟨⟨by decide, by decide, by decide⟩,
   allocate_fills_then_reclaims_oldest twoSlotPool (by decide) (by decide) (by decide)⟩

/-- The two-slot scenario: creating customers 1, 2 and 3 in a pool of 2 slots
succeeds three times; the third account takes over slot 0, the slot of
customer 1, while the account table keeps all three entries. -/
theorem two_slot_scenario :
    (allocateMany 3 twoSlotPool).1 = [some 0, some 1, some 0] ∧
    runLedger (emptyBank twoSlotPool)
      [LedgerCall.create_account 1 10, LedgerCall.create_account 2 20,
       LedgerCall.create_account 3 30]
      = { accounts := [⟨1, 10⟩, ⟨2, 20⟩, ⟨3, 30⟩],
          memory_map :=
            { pages := [{ data := some ⟨3, 30⟩, size := 8, is_used := 1, last_access_time := 0 },
                        { data := some ⟨2, 20⟩, size := 8, is_used := 1, last_access_time := 0 }],
              current_time := 0 } } := by
  decide

/-! ### C8 -/

/-- C8, as stated, fails: on a pool of one page that is in use and stamped
`INT_MAX`, the test `last_access_time < min_last_access_time` never holds,
`least_recently_used` stays -1 and `allocate_page` returns NULL although
`page_count` is 1. -/
theorem allocate_page_int_max_counterexample :
    stampedMaxPool.pages.length = 1 ∧
    allocate_page stampedMaxPool = (none, stampedMaxPool) ∧
    ¬ ((allocate_page stampedMaxPool).1 = none ↔ stampedMaxPool.pages.length = 0) := by
  decide

/-- C8 (amended): for every memory-map state, `allocate_page` returns no slot
if and only if `page_count` is zero or every page is in use with
`last_access_time` not below `INT_MAX` (for a C `int`: equal to `INT_MAX`). -/
theorem allocate_page_null_iff (mm : MemoryMap) :
    (allocate_page mm).1 = none ↔
      (mm.pages.length = 0 ∨
        ∀ p ∈ mm.pages, p.is_used ≠ 0 ∧ INT_MAX ≤ p.last_access_time) := by
  rw [allocate_page_none_iff]
  constructor
  · intro h; exact Or.inr h
  · rintro (h | h)
    · have : mm.pages = [] := List.length_eq_zero.mp h
      simp [this]
    · exact h

/-- On every state in which each page is free or stamped below `INT_MAX`
(all stamps the program writes are 0), `allocate_page` returns no slot exactly
when `page_count` is zero. -/
theorem allocate_page_null_iff_empty (mm : MemoryMap)
    (h : ∀ p ∈ mm.pages, p.is_used = 0 ∨ p.last_access_time < INT_MAX) :
    (allocate_page mm).1 = none ↔ mm.pages.length = 0 := by
  rw [allocate_page_none_iff]
  constructor
  · intro hall
    cases hp : mm.pages with
    | nil => rfl
    | cons p rest =>
      have hmem : p ∈ mm.pages := by rw [hp]; exact List.mem_cons_self p rest
      have h1 := h p hmem
      have h2 := hall p hmem
      rcases h1 with h1 | h1
      · exact absurd h1 h2.1
      · omega
  · intro h0
    have : mm.pages = [] := List.length_eq_zero.mp h0
    simp [this]

/-! ### Transaction worker -/

/-- After the worker, the record's status is -1 whenever its `customer_id` is
below 0 or at least `MAX_ACCOUNTS`, and no message is sent. -/
theorem handle_transaction_out_of_range (accs : List Account) (t : Transaction)
    (h : t.customer_id < 0 ∨ t.customer_id ≥ 100) :
    (handle_transaction accs t).transaction.status = -1 ∧
      (handle_transaction accs t).message = none := by
  have h2 : t.customer_id < 0 ∨ t.customer_id ≥ (MAX_ACCOUNTS : Int) := by
    simpa [MAX_ACCOUNTS] using h
  simp only [handle_transaction, h2, if_true, and_self]

/-- After the worker, the account table is the one its ledger call left. -/
theorem handle_transaction_accounts (accs : List Account) (t : Transaction) :
    (handle_transaction accs t).accounts =
      (t.transaction_function.call accs t.customer_id t.amount).2 := by
  unfold handle_transaction
  simp only
  split
  · rfl
  · split <;> rfl

/-- After the worker, the record's status is -1 whenever the ledger call
returned an error. -/
theorem handle_transaction_failed_of_error (accs : List Account) (t : Transaction)
    (h : (t.transaction_function.call accs t.customer_id t.amount).1 ≠ 0) :
    (handle_transaction accs t).transaction.status = -1 := by
  unfold handle_transaction
  simp only
  split
  · rfl
  · split
    · rfl
    · simp [h]

/-! ### C9 -/

/-- C9 fails on the code: account 100 exists (`create_account(100, 0)`
succeeds), and the worker of a deposit of 5 for customer 100 calls `deposit`
before it tests the id range: the record ends Failed (-1) but the balance of
account 100 has become 5. -/
theorem handle_transaction_out_of_range_mutates :
    create_account (emptyBank mainPool) 100 0 ≠ (-2, emptyBank mainPool) ∧
    (create_account (emptyBank mainPool) 100 0).1 = 0 ∧
    (create_account (emptyBank mainPool) 100 0).2.accounts = [⟨100, 0⟩] ∧
    (handle_transaction [⟨100, 0⟩] (newTransaction 1 100 Operation.deposit 5)).transaction.status
      = -1 ∧
    (handle_transaction [⟨100, 0⟩] (newTransaction 1 100 Operation.deposit 5)).accounts
      = [⟨100, 5⟩] ∧
    (handle_transaction [⟨100, 0⟩] (newTransaction 1 100 Operation.deposit 5)).accounts
      ≠ [⟨100, 0⟩] := by
  decide

/-! ### C10 -/

/-- C10 fails on the code: for a withdrawal of 60 from account 1 holding 100,
`withdraw` returns 0 and the balance becomes 40; the funds test that follows
reads the new balance, finds 40 < 60 and marks the record Failed (-1). -/
theorem handle_transaction_success_marked_failed :
    withdraw [⟨1, 100⟩] 1 60 = (0, [⟨1, 40⟩]) ∧
    (handle_transaction [⟨1, 100⟩] (newTransaction 1 1 Operation.withdraw 60)).accounts
      = [⟨1, 40⟩] ∧
    (handle_transaction [⟨1, 100⟩] (newTransaction 1 1 Operation.withdraw 60)).transaction.status
      = -1 ∧
    (handle_transaction [⟨1, 100⟩] (newTransaction 1 1 Operation.withdraw 60)).transaction.status
      ≠ 1 := by
  decide

/-! ### C11 -/

theorem checkBalanceScan_eq (id : Int) (accs : List Account) :
    checkBalanceScan id accs = (findBalance id accs).getD (-1) := by
  induction accs with
  | nil => rfl
  | cons a rest ih =>
    by_cases hc : a.customer_id = id
    · simp [checkBalanceScan, findBalance, hc]
    · simp [checkBalanceScan, findBalance, hc, ih]

/-- A withdrawal record with a positive amount whose account is missing or
holds less than the amount: the worker leaves the record Failed (-1) and the
account table as it was. -/
theorem handle_transaction_withdraw_short (accs : List Account) (t : Transaction)
    (hop : t.transaction_function = Operation.withdraw) (hamt : 0 < t.amount)
    (hbal : ∀ b, findBalance t.customer_id accs = some b → b < t.amount) :
    (handle_transaction accs t).transaction.status = -1 ∧
      (handle_transaction accs t).accounts = accs := by
  have hcall : t.transaction_function.call accs t.customer_id t.amount
      = ((t.transaction_function.call accs t.customer_id t.amount).1, accs) ∧
      (t.transaction_function.call accs t.customer_id t.amount).1 ≠ 0 := by
    rw [hop]
    simp only [Operation.call, withdraw, not_lt.mpr (le_of_lt hamt), if_false]
    cases hf : findBalance t.customer_id accs with
    | none => simp [withdrawScan_of_find_none _ _ _ hf]
    | some b => simp [withdrawScan_of_find_lt _ _ _ b hf (hbal b hf)]
  refine ⟨handle_transaction_failed_of_error accs t hcall.2, ?_⟩
  rw [handle_transaction_accounts, hcall.1]

/-- The same for every record with `customer_id ≥ 0`, the premise being read
off `check_balance` as the worker does. -/
theorem handle_transaction_withdraw_short_of_check (accs : List Account) (t : Transaction)
    (hop : t.transaction_function = Operation.withdraw) (hamt : 0 < t.amount)
    (hid : 0 ≤ t.customer_id) (hbal : check_balance accs t.customer_id < t.amount) :
    (handle_transaction accs t).transaction.status = -1 ∧
      (handle_transaction accs t).accounts = accs := by
  apply handle_transaction_withdraw_short accs t hop hamt
  intro b hb
  simpa [check_balance, not_lt.mpr hid, checkBalanceScan_eq, hb] using hbal

/-- A record outside C11: account -1 holds 100, not less than the amount 5, and
only the error code -4 that `check_balance(-1)` returns is below the amount.
The worker calls `withdraw` before the id range test (the defect shown under
C9): the record ends Failed (-1) and the balance has gone from 100 to 95. -/
theorem handle_transaction_negative_id_withdraws :
    (create_account (emptyBank mainPool) (-1) 100).1 = 0 ∧
    (create_account (emptyBank mainPool) (-1) 100).2.accounts = [⟨-1, 100⟩] ∧
    check_balance [⟨-1, 100⟩] (-1) < 5 ∧
    (handle_transaction [⟨-1, 100⟩] (newTransaction 1 (-1) Operation.withdraw 5)).transaction.status
      = -1 ∧
    (handle_transaction [⟨-1, 100⟩] (newTransaction 1 (-1) Operation.withdraw 5)).accounts
      = [⟨-1, 95⟩] := by
  decide

/-- The scenario of C11: a withdrawal of 100 from a fresh account holding 50
ends Failed (-1) with the balance still 50. -/
theorem withdraw_100_from_50_scenario :
    handle_transaction [⟨7, 50⟩] (newTransaction 1 7 Operation.withdraw 100)
      = { accounts := [⟨7, 50⟩],
          transaction := { newTransaction 1 7 Operation.withdraw 100 with status := -1 },
          message := none } := by
  decide

/-- C11: for every ledger and every withdrawal record with `amount > 0` whose
account, when the worker starts, is missing or holds a balance below the
amount, `handle_transaction` leaves the record with status Failed (-1) and the
account table, hence every balance, as it was; no condition on `customer_id`. -/
theorem withdraw_record_short_of_funds (accs : List Account) (t : Transaction)
    (hop : t.transaction_function = Operation.withdraw) (hamt : 0 < t.amount)
    (hbal : ∀ b, findBalance t.customer_id accs = some b → b < t.amount) :
    (handle_transaction accs t).transaction.status = -1 ∧
      (handle_transaction accs t).accounts = accs :=
  handle_transaction_withdraw_short accs t hop hamt hbal

/-- Witness for C11: a withdrawal of 100 from account 7 holding 50, and a
withdrawal of 5 for customer 9, who has no account. -/
theorem withdraw_record_short_of_funds_witness :
    findBalance 7 [⟨3, 10⟩, ⟨7, 50⟩] = some 50 ∧
    ((handle_transaction [⟨3, 10⟩, ⟨7, 50⟩]
        (newTransaction 1 7 Operation.withdraw 100)).transaction.status = -1 ∧
      (handle_transaction [⟨3, 10⟩, ⟨7, 50⟩]
        (newTransaction 1 7 Operation.withdraw 100)).accounts = [⟨3, 10⟩, ⟨7, 50⟩]) ∧
    findBalance 9 [⟨3, 10⟩, ⟨7, 50⟩] = none ∧
    ((handle_transaction [⟨3, 10⟩, ⟨7, 50⟩]
        (newTransaction 2 9 Operation.withdraw 5)).transaction.status = -1 ∧
      (handle_transaction [⟨3, 10⟩, ⟨7, 50⟩]
        (newTransaction 2 9 Operation.withdraw 5)).accounts = [⟨3, 10⟩, ⟨7, 50⟩]) :=
  ⟨by decide,
   withdraw_record_short_of_funds [⟨3, 10⟩, ⟨7, 50⟩]
     (newTransaction 1 7 Operation.withdraw 100) rfl (by decide)
     (by
       intro b hb
       simp [newTransaction, findBalance] at hb
       simp [newTransaction, ← hb]),
   by decide,
   withdraw_record_short_of_funds [⟨3, 10⟩, ⟨7, 50⟩]
     (newTransaction 2 9 Operation.withdraw 5) rfl (by decide)
     (by
       intro b hb
       simp [newTransaction, findBalance] at hb)⟩

/-! ### C12 -/

/-- Whenever the worker hands a message to `mq_send`, its `transaction_id` is
the record's, its `customer_id` field carries the record's final status, and
its `status` field is 0, which is never the final status (1 or -1). -/
theorem handle_transaction_message_fields (accs : List Account) (t : Transaction) (m : Message)
    (h : (handle_transaction accs t).message = some m) :
    m.transaction_id = t.transaction_id ∧
    m.customer_id = (handle_transaction accs t).transaction.status ∧
    m.status = 0 ∧
    m.status ≠ (handle_transaction accs t).transaction.status := by
  unfold handle_transaction at h ⊢
  simp only at h ⊢
  split at h
  · simp at h
  · split at h
    · simp at h
    · simp only [Option.some.injEq] at h
      subst h
      rename_i h1 h2
      simp only [h1, h2, if_false]
      refine ⟨trivial, trivial, trivial, ?_⟩
      split <;> decide

/-- C12 fails on the code: for a deposit of 20 on account 7 (record 1) the
record ends Completed (1) and the message handed to `mq_send` is `{1, 1, 0}`:
its `status` field is 0, not 1; the status sits in the `customer_id` field. -/
theorem handle_transaction_message_status_zero :
    (handle_transaction [⟨7, 50⟩] (newTransaction 1 7 Operation.deposit 20)).transaction.status
      = 1 ∧
    (handle_transaction [⟨7, 50⟩] (newTransaction 1 7 Operation.deposit 20)).message
      = some { transaction_id := 1, customer_id := 1, status := 0 } ∧
    (handle_transaction [⟨7, 50⟩] (newTransaction 1 7 Operation.deposit 20)).message
      ≠ some { transaction_id := 1, customer_id := 7, status := 1 } := by
  decide

/-! ### Transaction registry -/

theorem create_transaction_below (ts : List Transaction) (c : Int) (f : Operation) (a : Int)
    (h : ts.length < 100) :
    create_transaction ts c f a
      = (0, ts ++ [newTransaction ((ts.length : Int) + 1) c f a]) := by
  have hw : wrapInt ((ts.length : Int) + 1) = (ts.length : Int) + 1 :=
    wrapInt_of_inRange _ (by unfold INT_MIN; omega) (by unfold INT_MAX; omega)
  have h2 : ¬ ts.length ≥ MAX_TRANSACTIONS := by simp [MAX_TRANSACTIONS]; omega
  simp [create_transaction, h2, hw]

theorem create_transaction_full (ts : List Transaction) (c : Int) (f : Operation) (a : Int)
    (h : 100 ≤ ts.length) : create_transaction ts c f a = (-1, ts) := by
  have h2 : ts.length ≥ MAX_TRANSACTIONS := by simp [MAX_TRANSACTIONS]; omega
  simp [create_transaction, h2]

/-! ### C13 -/

/-- C13, as stated, fails: on the empty registry `create_transaction(7, deposit, 20)`
creates the record with `transaction_id` 1 and returns 0, not 1. -/
theorem create_transaction_returns_zero_counterexample :
    create_transaction [] 7 Operation.deposit 20
      = (0, [newTransaction 1 7 Operation.deposit 20]) ∧
    (create_transaction [] 7 Operation.deposit 20).1
      ≠ (newTransaction 1 7 Operation.deposit 20).transaction_id := by
  decide

/-- C13 (amended): for every registry holding fewer than 100 records,
`create_transaction(customerId, operation, amount)` returns 0 and appends the
record whose `transaction_id` is the old count plus one; for a registry holding
100 records it returns -1 and leaves the registry unchanged. -/
theorem create_transaction_result (ts : List Transaction) (c : Int) (f : Operation) (a : Int) :
    (ts.length < 100 →
      create_transaction ts c f a
        = (0, ts ++ [newTransaction ((ts.length : Int) + 1) c f a])) ∧
    (100 ≤ ts.length → create_transaction ts c f a = (-1, ts)) :=
  ⟨create_transaction_below ts c f a, create_transaction_full ts c f a⟩

set_option maxRecDepth 100000 in
/-- Witness for C13 (amended): a registry of two records and the full registry. -/
theorem create_transaction_result_witness :
    create_transaction [newTransaction 1 7 Operation.deposit 20,
        newTransaction 2 7 Operation.withdraw 5] 3 Operation.deposit 9
      = (0, [newTransaction 1 7 Operation.deposit 20,
          newTransaction 2 7 Operation.withdraw 5]
            ++ [newTransaction
                (([newTransaction 1 7 Operation.deposit 20,
                    newTransaction 2 7 Operation.withdraw 5].length : Int) + 1)
                3 Operation.deposit 9]) ∧
    create_transaction fullRegistry 3 Operation.deposit 9 = (-1, fullRegistry) :=
  ⟨(create_transaction_result [newTransaction 1 7 Operation.deposit 20,
        newTransaction 2 7 Operation.withdraw 5] 3 Operation.deposit 9).1 (by decide),
   (create_transaction_result fullRegistry 3 Operation.deposit 9).2 (by decide)⟩

/-! ### Transaction ids -/

theorem terminate_transaction_ids (t : Int) (ts : List Transaction) :
    (terminate_transaction t ts).2.map Transaction.transaction_id
      = ts.map Transaction.transaction_id := by
  induction ts with
  | nil => rfl
  | cons x rest ih =>
    by_cases hx : x.transaction_id = t
    · by_cases hs : x.status = 0
      · simp [terminate_transaction, hx, hs]
      · simp [terminate_transaction, hx, hs]
    · simp [terminate_transaction, hx, ih]

theorem schedulerPass_ids (ts : List Transaction) :
    ∀ completed : Int, (schedulerPass ts completed).1.map Transaction.transaction_id
      = ts.map Transaction.transaction_id := by
  induction ts with
  | nil => intro completed; rfl
  | cons x rest ih =>
    intro completed
    simp only [schedulerPass]
    split
    · split
      · simp [ih]
      · simp [ih]
    · simp [ih]

theorem schedulerLoop_ids (fuel : Nat) :
    ∀ (ts : List Transaction) (completed : Int) (ts2 : List Transaction),
      schedulerLoop fuel ts completed = some ts2 →
      ts2.map Transaction.transaction_id = ts.map Transaction.transaction_id := by
  induction fuel with
  | zero => intro ts completed ts2 h; simp [schedulerLoop] at h
  | succ n ih =>
    intro ts completed ts2 h
    simp only [schedulerLoop] at h
    split at h
    · rw [ih _ _ _ h, schedulerPass_ids]
    · simp only [Option.some.injEq] at h
      rw [h]

theorem setRecord_ids (t2 : Transaction) (ts : List Transaction) :
    ∀ (i : Nat) (t : Transaction), ts[i]? = some t →
      t2.transaction_id = t.transaction_id →
      (setRecord t2 ts i).map Transaction.transaction_id
        = ts.map Transaction.transaction_id := by
  induction ts with
  | nil => intro i t h; simp at h
  | cons x rest ih =>
    intro i t h hid
    cases i with
    | zero =>
      simp only [List.getElem?_cons_zero, Option.some.injEq] at h
      subst h
      simp [setRecord, hid]
    | succ j =>
      simp only [List.getElem?_cons_succ] at h
      simp [setRecord, ih j t h hid]

theorem handle_transaction_keeps_id (accs : List Account) (t : Transaction) :
    (handle_transaction accs t).transaction.transaction_id = t.transaction_id := by
  unfold handle_transaction
  simp only
  split
  · rfl
  · split <;> rfl

/-- Every step keeps the ids of the records there are and adds at most the
next id, below the capacity. -/
theorem stepSystem_ids (s : System) (k : SystemCall)
    (h : s.transactions.map Transaction.transaction_id
          = (List.range s.transactions.length).map (fun i : Nat => (i : Int) + 1) ∧
        s.transactions.length ≤ 100) :
    (stepSystem s k).transactions.map Transaction.transaction_id
        = (List.range (stepSystem s k).transactions.length).map (fun i : Nat => (i : Int) + 1) ∧
      (stepSystem s k).transactions.length ≤ 100 := by
  have keep : ∀ ts2 : List Transaction,
      ts2.map Transaction.transaction_id = s.transactions.map Transaction.transaction_id →
      ts2.map Transaction.transaction_id
          = (List.range ts2.length).map (fun i : Nat => (i : Int) + 1) ∧ ts2.length ≤ 100 := by
    intro ts2 h2
    have hl : ts2.length = s.transactions.length := by
      simpa using congrArg List.length h2
    rw [h2, hl]
    exact h
  cases k with
  | create_transaction c f a =>
    by_cases hlen : s.transactions.length < 100
    · have hr := create_transaction_below s.transactions c f a hlen
      simp only [stepSystem, hr, List.map_append, List.length_append, List.length_singleton,
        List.range_succ, h.1, List.map_cons, List.map_nil, newTransaction]
      exact ⟨trivial, by omega⟩
    · have hr := create_transaction_full s.transactions c f a (by omega)
      simpa [stepSystem, hr] using h
  | terminate_transaction t =>
    exact keep _ (terminate_transaction_ids t s.transactions)
  | scheduler_pass completed =>
    exact keep _ (schedulerPass_ids s.transactions completed)
  | round_robin_scheduler fuel =>
    simp only [stepSystem]
    cases hr : round_robin_scheduler fuel s.transactions with
    | none => exact h
    | some ts2 => exact keep _ (schedulerLoop_ids fuel s.transactions 0 ts2 hr)
  | worker i =>
    simp only [stepSystem]
    cases ht : s.transactions[i]? with
    | none => exact h
    | some t =>
      exact keep _ (setRecord_ids _ s.transactions i t ht (handle_transaction_keeps_id _ t))

theorem runSystem_ids (calls : List SystemCall) :
    ∀ s : System,
      (s.transactions.map Transaction.transaction_id
          = (List.range s.transactions.length).map (fun i : Nat => (i : Int) + 1) ∧
        s.transactions.length ≤ 100) →
      ((runSystem s calls).transactions.map Transaction.transaction_id
          = (List.range (runSystem s calls).transactions.length).map (fun i : Nat => (i : Int) + 1) ∧
        (runSystem s calls).transactions.length ≤ 100) := by
  induction calls with
  | nil => intro s h; simpa [runSystem] using h
  | cons k rest ih =>
    intro s h
    simpa [runSystem] using ih (stepSystem s k) (stepSystem_ids s k h)

/-! ### C14 -/

/-- C14: in every state reached from the empty registry (over any account
table) by `create_transaction`, `terminate_transaction`, scheduler passes or
whole `round_robin_scheduler` runs, and worker runs, the record at index `i`
has `transaction_id = i + 1` and at most 100 records exist; and from such a
state with fewer than 100 records `create_transaction(c, f, a)` appends exactly
the record with the next id, the given `customer_id`, function and amount,
status 0, `time_quantum` 1, `remaining_time` 1, start and end time 0, leaving
every earlier record as it was. -/
theorem reachable_transaction_ids (accs : List Account) (calls : List SystemCall) :
    (∀ (i : Nat) (t : Transaction),
      (runSystem { accounts := accs, transactions := [] } calls).transactions[i]? = some t →
      t.transaction_id = (i : Int) + 1) ∧
    (runSystem { accounts := accs, transactions := [] } calls).transactions.length ≤ 100 ∧
    (∀ (c : Int) (f : Operation) (a : Int),
      (runSystem { accounts := accs, transactions := [] } calls).transactions.length < 100 →
      (create_transaction
          (runSystem { accounts := accs, transactions := [] } calls).transactions c f a).2
        = (runSystem { accounts := accs, transactions := [] } calls).transactions ++
          [{ transaction_id :=
               ((runSystem { accounts := accs, transactions := [] } calls).transactions.length
                 : Int) + 1,
             customer_id := c, status := 0, transaction_function := f, amount := a,
             time_quantum := 1, remaining_time := 1, start_time := 0, end_time := 0 }]) := by
  have hinv := runSystem_ids calls { accounts := accs, transactions := [] } (by simp)
  refine ⟨?_, hinv.2, ?_⟩
  · intro i t hi
    have h1 : ((runSystem { accounts := accs, transactions := [] } calls).transactions.map
        Transaction.transaction_id)[i]? = some t.transaction_id := by
      simp [List.getElem?_map, hi]
    rw [hinv.1] at h1
    have hlt : i < (runSystem { accounts := accs, transactions := [] } calls).transactions.length := by
      by_contra hge
      have := List.getElem?_eq_none (l := (runSystem { accounts := accs, transactions := [] }
        calls).transactions) (n := i) (by omega)
      rw [this] at hi
      exact Option.noConfusion hi
    simp [List.getElem?_map, List.getElem?_range hlt] at h1
    exact h1.symm
  · intro c f a hlen
    rw [create_transaction_below _ c f a hlen]
    rfl

/-- Witness for C14: three submissions, the worker of the first, a
termination of the second, one scheduler pass and a fourth submission. -/
theorem reachable_transaction_ids_witness :
    (runSystem { accounts := [⟨7, 50⟩], transactions := [] }
      [SystemCall.create_transaction 7 Operation.deposit 20,
       SystemCall.create_transaction 7 Operation.withdraw 100,
       SystemCall.create_transaction 8 Operation.deposit 1,
       SystemCall.worker 0, SystemCall.terminate_transaction 2,
       SystemCall.scheduler_pass 0]).transactions.map
        (fun t => (t.transaction_id, t.status)) = [(1, 1), (2, -1), (3, 1)] ∧
    (create_transaction
        (runSystem { accounts := [⟨7, 50⟩], transactions := [] }
          [SystemCall.create_transaction 7 Operation.deposit 20,
           SystemCall.create_transaction 7 Operation.withdraw 100,
           SystemCall.create_transaction 8 Operation.deposit 1,
           SystemCall.worker 0, SystemCall.terminate_transaction 2,
           SystemCall.scheduler_pass 0]).transactions 9 Operation.withdraw 4).2
      = (runSystem { accounts := [⟨7, 50⟩], transactions := [] }
          [SystemCall.create_transaction 7 Operation.deposit 20,
           SystemCall.create_transaction 7 Operation.withdraw 100,
           SystemCall.create_transaction 8 Operation.deposit 1,
           SystemCall.worker 0, SystemCall.terminate_transaction 2,
           SystemCall.scheduler_pass 0]).transactions ++
        [{ transaction_id :=
             ((runSystem { accounts := [⟨7, 50⟩], transactions := [] }
                [SystemCall.create_transaction 7 Operation.deposit 20,
                 SystemCall.create_transaction 7 Operation.withdraw 100,
                 SystemCall.create_transaction 8 Operation.deposit 1,
                 SystemCall.worker 0, SystemCall.terminate_transaction 2,
                 SystemCall.scheduler_pass 0]).transactions.length : Int) + 1,
           customer_id := 9, status := 0, transaction_function := Operation.withdraw,
           amount := 4, time_quantum := 1, remaining_time := 1, start_time := 0,
           end_time := 0 }] :=
  ⟨by decide,
   (reachable_transaction_ids [⟨7, 50⟩]
      [SystemCall.create_transaction 7 Operation.deposit 20,
       SystemCall.create_transaction 7 Operation.withdraw 100,
       SystemCall.create_transaction 8 Operation.deposit 1,
       SystemCall.worker 0, SystemCall.terminate_transaction 2,
       SystemCall.scheduler_pass 0]).2.2 9 Operation.withdraw 4 (by decide)⟩

/-! ### C15 -/

theorem terminate_transaction_not_found (t : Int) (ts : List Transaction)
    (h : ∀ r ∈ ts, r.transaction_id ≠ t) : terminate_transaction t ts = (-1, ts) := by
  induction ts with
  | nil => rfl
  | cons x rest ih =>
    have hx : x.transaction_id ≠ t := h x (List.mem_cons_self x rest)
    simp [terminate_transaction, hx, ih (fun r hr => h r (List.mem_cons_of_mem x hr))]

theorem terminate_transaction_found (t : Int) (pre : List Transaction) (r : Transaction)
    (post : List Transaction) (hpre : ∀ x ∈ pre, x.transaction_id ≠ t)
    (hr : r.transaction_id = t) :
    terminate_transaction t (pre ++ r :: post)
      = (0, pre ++ { r with status := if r.status = 0 then -1 else r.status } :: post) := by
  induction pre with
  | nil =>
    by_cases hs : r.status = 0
    · simp [terminate_transaction, hr, hs]
    · subst hr
      simp only [terminate_transaction, hs, if_true, if_false, List.nil_append]
  | cons x rest ih =>
    have hx : x.transaction_id ≠ t := hpre x (List.mem_cons_self x rest)
    simp [terminate_transaction, hx, ih (fun y hy => hpre y (List.mem_cons_of_mem x hy))]

theorem exists_first_record (t : Int) (ts : List Transaction)
    (h : ∃ r ∈ ts, r.transaction_id = t) :
    ∃ pre r post, ts = pre ++ r :: post ∧ (∀ x ∈ pre, x.transaction_id ≠ t) ∧
      r.transaction_id = t := by
  induction ts with
  | nil => simp at h
  | cons x rest ih =>
    by_cases hx : x.transaction_id = t
    · exact ⟨[], x, rest, rfl, by simp, hx⟩
    · have h2 : ∃ r ∈ rest, r.transaction_id = t := by
        obtain ⟨r, hr, hid⟩ := h
        rcases List.mem_cons.mp hr with rfl | hr
        · exact absurd hid hx
        · exact ⟨r, hr, hid⟩
      obtain ⟨pre, r, post, he, hpre, hr⟩ := ih h2
      refine ⟨x :: pre, r, post, by simp [he], ?_, hr⟩
      intro y hy
      rcases List.mem_cons.mp hy with rfl | hy
      · exact hx
      · exact hpre y hy

/-- C15: for every registry and every id `t`, `terminate_transaction(t)`
returns -1 and changes nothing when no record has id `t`; otherwise it returns
0 and the table afterwards is the table before with only the record with id `t`
(the first one the scan meets) touched: its status is -1 if it was 0 and is
kept if it was 1 or -1; every other record is as it was. -/
theorem terminate_transaction_spec (ts : List Transaction) (t : Int) :
    ((∀ r ∈ ts, r.transaction_id ≠ t) → terminate_transaction t ts = (-1, ts)) ∧
    ((∃ r ∈ ts, r.transaction_id = t) →
      ∃ pre r post, ts = pre ++ r :: post ∧ (∀ x ∈ pre, x.transaction_id ≠ t) ∧
        r.transaction_id = t ∧
        terminate_transaction t ts
          = (0, pre ++ { r with status := if r.status = 0 then -1 else r.status } :: post)) := by
  refine ⟨terminate_transaction_not_found t ts, ?_⟩
  intro h
  obtain ⟨pre, r, post, he, hpre, hr⟩ := exists_first_record t ts h
  refine ⟨pre, r, post, he, hpre, hr, ?_⟩
  rw [he]
  exact terminate_transaction_found t pre r post hpre hr

/-- Witness for C15: terminating record 5 (absent), record 2 (Running) and
record 1 (Completed) of a registry of three records. -/
theorem terminate_transaction_spec_witness :
    terminate_transaction 5
        [completedRecord, newTransaction 2 7 Operation.withdraw 5,
          newTransaction 3 8 Operation.deposit 1]
      = (-1, [completedRecord, newTransaction 2 7 Operation.withdraw 5,
          newTransaction 3 8 Operation.deposit 1]) ∧
    terminate_transaction 2
        [completedRecord, newTransaction 2 7 Operation.withdraw 5,
          newTransaction 3 8 Operation.deposit 1]
      = (0, [completedRecord, { newTransaction 2 7 Operation.withdraw 5 with status := -1 },
          newTransaction 3 8 Operation.deposit 1]) ∧
    terminate_transaction 1
        [completedRecord, newTransaction 2 7 Operation.withdraw 5,
          newTransaction 3 8 Operation.deposit 1]
      = (0, [completedRecord, newTransaction 2 7 Operation.withdraw 5,
          newTransaction 3 8 Operation.deposit 1]) ∧
    (∃ pre r post,
      [completedRecord, newTransaction 2 7 Operation.withdraw 5,
          newTransaction 3 8 Operation.deposit 1] = pre ++ r :: post ∧
      (∀ x ∈ pre, x.transaction_id ≠ 2) ∧ r.transaction_id = 2 ∧
      terminate_transaction 2
          [completedRecord, newTransaction 2 7 Operation.withdraw 5,
            newTransaction 3 8 Operation.deposit 1]
        = (0, pre ++ { r with status := if r.status = 0 then -1 else r.status } :: post)) :=
  ⟨(terminate_transaction_spec _ 5).1 (by decide), by decide, by decide,
   (terminate_transaction_spec
      [completedRecord, newTransaction 2 7 Operation.withdraw 5,
        newTransaction 3 8 Operation.deposit 1] 2).2
      ⟨newTransaction 2 7 Operation.withdraw 5, by decide, by decide⟩⟩

/-! ### Round-robin scheduler -/

theorem liveCount_nonneg (ts : List Transaction) : 0 ≤ liveCount ts := by
  induction ts with
  | nil => simp [liveCount]
  | cons t rest ih =>
    simp only [liveCount]
    split <;> omega

theorem liveCount_le_length (ts : List Transaction) : liveCount ts ≤ (ts.length : Int) := by
  induction ts with
  | nil => simp [liveCount]
  | cons t rest ih =>
    simp only [liveCount, List.length_cons, Nat.cast_add, Nat.cast_one]
    split <;> omega

theorem liveCount_lt_length (ts : List Transaction)
    (h : ∃ t ∈ ts, ¬ (t.status = 0 ∧ t.remaining_time > 0)) :
    liveCount ts < (ts.length : Int) := by
  induction ts with
  | nil => simp at h
  | cons x rest ih =>
    simp only [liveCount, List.length_cons, Nat.cast_add, Nat.cast_one]
    by_cases hx : x.status = 0 ∧ x.remaining_time > 0
    · have h2 : ∃ t ∈ rest, ¬ (t.status = 0 ∧ t.remaining_time > 0) := by
        obtain ⟨t, ht, hn⟩ := h
        rcases List.mem_cons.mp ht with rfl | ht
        · exact absurd hx hn
        · exact ⟨t, ht, hn⟩
      have := ih h2
      simp only [hx, and_self, if_true]
      omega
    · have := liveCount_le_length rest
      simp only [hx, if_false]
      omega

theorem schedulerPass_length (ts : List Transaction) :
    ∀ completed : Int, (schedulerPass ts completed).1.length = ts.length := by
  intro completed
  simpa using congrArg List.length (schedulerPass_ids ts completed)

/-- One pass never raises `completed_transactions` plus the number of records
still to complete. -/
theorem schedulerPass_bound (ts : List Transaction) :
    ∀ completed : Int, INT_MIN ≤ completed →
      INT_MIN ≤ (schedulerPass ts completed).2 ∧
      (schedulerPass ts completed).2 + liveCount (schedulerPass ts completed).1
        ≤ completed + liveCount ts := by
  induction ts with
  | nil => intro completed h; simp [schedulerPass, liveCount, h]
  | cons t rest ih =>
    intro completed h
    simp only [schedulerPass]
    by_cases hl : t.status = 0 ∧ t.remaining_time > 0
    · by_cases h1 : t.remaining_time ≤ 1
      · have hw := wrapInt_range (completed + 1)
        have hle : wrapInt (completed + 1) ≤ completed + 1 := by
          unfold wrapInt; unfold INT_MIN at h; omega
        have := ih (wrapInt (completed + 1)) hw.1
        simp only [hl, h1, and_self, if_true, liveCount]
        refine ⟨this.1, ?_⟩
        have h10 : ¬ ((1 : Int) = 0 ∧ (0 : Int) > 0) := by decide
        simp only [h10, if_false]
        omega
      · have := ih completed h
        simp only [hl, h1, and_self, if_true, if_false, liveCount]
        refine ⟨this.1, ?_⟩
        split <;> omega
    · have := ih completed h
      simp only [hl, if_false, liveCount]
      refine ⟨this.1, ?_⟩
      omega

/-- The loop never ends once `completed_transactions` plus the number of
records still to complete is below `transaction_count`. -/
theorem schedulerLoop_diverges (fuel : Nat) :
    ∀ (ts : List Transaction) (completed : Int), INT_MIN ≤ completed →
      completed + liveCount ts < (ts.length : Int) →
      schedulerLoop fuel ts completed = none := by
  induction fuel with
  | zero => intro ts completed _ _; rfl
  | succ n ih =>
    intro ts completed h0 h1
    have hlive := liveCount_nonneg ts
    have hlt : completed < (ts.length : Int) := by omega
    have hb := schedulerPass_bound ts completed h0
    simp only [schedulerLoop, hlt, if_true]
    apply ih _ _ hb.1
    rw [schedulerPass_length]
    omega

/-- On every registry holding a record that is not Running or has no
remaining time, `round_robin_scheduler` is still looping after any number of
passes. -/
theorem round_robin_scheduler_diverges (ts : List Transaction)
    (h : ∃ t ∈ ts, t.status ≠ 0 ∨ t.remaining_time ≤ 0) (fuel : Nat) :
    round_robin_scheduler fuel ts = none := by
  apply schedulerLoop_diverges fuel ts 0 (by unfold INT_MIN; omega)
  have := liveCount_lt_length ts (by
    obtain ⟨t, ht, hn⟩ := h
    refine ⟨t, ht, ?_⟩
    intro hl
    rcases hn with hn | hn
    · exact hn hl.1
    · omega)
  omega

/-- Without overflow one pass keeps `completed_transactions` plus the number
of records still to complete. -/
theorem schedulerPass_exact (ts : List Transaction) :
    ∀ completed : Int, 0 ≤ completed → completed + (ts.length : Int) ≤ INT_MAX →
      (∀ t ∈ ts, t.status = 0 ∧ t.remaining_time > 0 → t.remaining_time ≤ INT_MAX) →
      completed ≤ (schedulerPass ts completed).2 ∧
      (schedulerPass ts completed).2 + liveCount (schedulerPass ts completed).1
        = completed + liveCount ts := by
  induction ts with
  | nil => intro completed _ _ _; simp [schedulerPass, liveCount]
  | cons t rest ih =>
    intro completed h0 h1 hr
    simp only [List.length_cons, Nat.cast_add, Nat.cast_one] at h1
    have hrest : ∀ x ∈ rest, x.status = 0 ∧ x.remaining_time > 0 → x.remaining_time ≤ INT_MAX :=
      fun x hx => hr x (List.mem_cons_of_mem t hx)
    simp only [schedulerPass]
    by_cases hl : t.status = 0 ∧ t.remaining_time > 0
    · have ht := hr t (List.mem_cons_self t rest) hl
      by_cases hle : t.remaining_time ≤ 1
      · have hw : wrapInt (completed + 1) = completed + 1 :=
          wrapInt_of_inRange _ (by unfold INT_MIN; omega) (by omega)
        have := ih (completed + 1) (by omega) (by omega) hrest
        have h10 : ¬ ((1 : Int) = 0 ∧ (0 : Int) > 0) := by decide
        simp only [hl, hle, and_self, if_true, liveCount, hw, h10, if_false]
        omega
      · have hw : wrapInt (t.remaining_time - 1) = t.remaining_time - 1 :=
          wrapInt_of_inRange _ (by unfold INT_MIN; omega) (by omega)
        have := ih completed h0 (by omega) hrest
        have hstill : t.status = 0 ∧ t.remaining_time - 1 > 0 := ⟨hl.1, by omega⟩
        simp only [hl, hle, and_self, if_true, if_false, liveCount, hw, hstill]
        omega
    · have := ih completed h0 (by omega) hrest
      simp only [hl, if_false, liveCount]
      omega

/-- One pass lowers by one the bound on the remaining time of the records
still to complete. -/
theorem schedulerPass_remaining (n : Int) (hn : n + 1 ≤ INT_MAX) (ts : List Transaction) :
    ∀ completed : Int,
      (∀ t ∈ ts, t.status = 0 ∧ t.remaining_time > 0 → t.remaining_time ≤ n + 1) →
      ∀ t ∈ (schedulerPass ts completed).1,
        t.status = 0 ∧ t.remaining_time > 0 → t.remaining_time ≤ n := by
  induction ts with
  | nil => intro completed _ t ht; simp [schedulerPass] at ht
  | cons x rest ih =>
    intro completed hb t ht hlive
    have hrest : ∀ y ∈ rest, y.status = 0 ∧ y.remaining_time > 0 → y.remaining_time ≤ n + 1 :=
      fun y hy => hb y (List.mem_cons_of_mem x hy)
    simp only [schedulerPass] at ht
    by_cases hl : x.status = 0 ∧ x.remaining_time > 0
    · have hx := hb x (List.mem_cons_self x rest) hl
      by_cases hle : x.remaining_time ≤ 1
      · simp only [hl, hle, and_self, if_true] at ht
        rcases List.mem_cons.mp ht with rfl | ht
        · exact absurd hlive.1 (by simp)
        · exact ih _ hrest t ht hlive
      · have hw : wrapInt (x.remaining_time - 1) = x.remaining_time - 1 :=
          wrapInt_of_inRange _ (by unfold INT_MIN; omega) (by omega)
        simp only [hl, hle, and_self, if_true, if_false, hw] at ht
        rcases List.mem_cons.mp ht with rfl | ht
        · show x.remaining_time - 1 ≤ n
          omega
        · exact ih _ hrest t ht hlive
    · simp only [hl, if_false] at ht
      rcases List.mem_cons.mp ht with rfl | ht
      · exact absurd hlive hl
      · exact ih _ hrest t ht hlive

theorem liveCount_eq_zero (ts : List Transaction) (h : liveCount ts = 0) :
    ∀ t ∈ ts, t.status ≠ 0 ∨ t.remaining_time ≤ 0 := by
  induction ts with
  | nil => intro t ht; simp at ht
  | cons x rest ih =>
    have hn := liveCount_nonneg rest
    simp only [liveCount] at h
    by_cases hl : x.status = 0 ∧ x.remaining_time > 0
    · simp only [hl, and_self, if_true] at h
      omega
    · simp only [hl, if_false] at h
      intro t ht
      rcases List.mem_cons.mp ht with rfl | ht
      · by_cases hs : t.status = 0
        · right
          have : ¬ t.remaining_time > 0 := fun hr => hl ⟨hs, hr⟩
          omega
        · exact Or.inl hs
      · exact ih (by omega) t ht

theorem liveCount_eq_length (ts : List Transaction)
    (h : ∀ t ∈ ts, t.status = 0 ∧ t.remaining_time > 0) : liveCount ts = (ts.length : Int) := by
  induction ts with
  | nil => rfl
  | cons x rest ih =>
    have hx := h x (List.mem_cons_self x rest)
    have := ih (fun t ht => h t (List.mem_cons_of_mem x ht))
    simp only [liveCount, hx, and_self, if_true, List.length_cons, Nat.cast_add, Nat.cast_one]
    omega

theorem liveCount_of_none_live (ts : List Transaction)
    (h : ∀ t ∈ ts, ¬ (t.status = 0 ∧ t.remaining_time > 0)) : liveCount ts = 0 := by
  induction ts with
  | nil => rfl
  | cons x rest ih =>
    have hx := h x (List.mem_cons_self x rest)
    simp only [liveCount, hx, if_false, zero_add]
    exact ih (fun t ht => h t (List.mem_cons_of_mem x ht))

/-- The loop ends within `n + 1` passes when every record not yet counted as
completed is Running with remaining time between 1 and `n`. -/
theorem schedulerLoop_terminates (n : Nat) :
    ∀ (ts : List Transaction) (completed : Int), 0 ≤ completed →
      completed + liveCount ts = (ts.length : Int) → ts.length ≤ 100 →
      (n : Int) ≤ INT_MAX →
      (∀ t ∈ ts, t.status = 0 ∧ t.remaining_time > 0 → t.remaining_time ≤ (n : Int)) →
      ∃ ts2, schedulerLoop (n + 1) ts completed = some ts2 ∧ liveCount ts2 = 0 := by
  induction n with
  | zero =>
    intro ts completed h0 heq hlen _ hb
    have hz : liveCount ts = 0 := liveCount_of_none_live ts (by
      intro t ht hl
      have := hb t ht hl
      simp only [Nat.cast_zero] at this
      omega)
    refine ⟨ts, ?_, hz⟩
    have hge : ¬ completed < (ts.length : Int) := by omega
    simp [schedulerLoop, hge]
  | succ n ih =>
    intro ts completed h0 heq hlen hn hb
    have hlive := liveCount_nonneg ts
    by_cases hlt : completed < (ts.length : Int)
    · have hnn : (n : Int) + 1 ≤ INT_MAX := by
        simpa using hn
      have hr : ∀ t ∈ ts, t.status = 0 ∧ t.remaining_time > 0 → t.remaining_time ≤ INT_MAX := by
        intro t ht hl
        have := hb t ht hl
        simp only [Nat.cast_add, Nat.cast_one] at this
        omega
      have hex := schedulerPass_exact ts completed h0 (by unfold INT_MAX; omega) hr
      have hrem := schedulerPass_remaining (n : Int) hnn ts completed (by
        intro t ht hl
        simpa using hb t ht hl)
      have hlen2 := schedulerPass_length ts completed
      obtain ⟨ts2, h2, hz⟩ := ih (schedulerPass ts completed).1 (schedulerPass ts completed).2
        (by omega) (by rw [hlen2]; omega) (by rw [hlen2]; exact hlen)
        (by unfold INT_MAX at hnn ⊢; omega) hrem
      refine ⟨ts2, ?_, hz⟩
      rw [schedulerLoop]
      simp only [hlt, if_true]
      exact h2
    · refine ⟨ts, ?_, by omega⟩
      simp [schedulerLoop, hlt]

/-- On a registry of at most 100 records that are all Running with a positive
remaining time, `round_robin_scheduler` returns, and then no record is Running
with remaining time left. -/
theorem round_robin_scheduler_terminates (ts : List Transaction) (hlen : ts.length ≤ 100)
    (h : ∀ t ∈ ts, t.status = 0 ∧ 0 < t.remaining_time ∧ t.remaining_time ≤ INT_MAX) :
    ∃ fuel ts2, round_robin_scheduler fuel ts = some ts2 ∧
      ∀ t ∈ ts2, t.status ≠ 0 ∨ t.remaining_time ≤ 0 := by
  have hall : liveCount ts = (ts.length : Int) :=
    liveCount_eq_length ts (fun t ht => ⟨(h t ht).1, (h t ht).2.1⟩)
  obtain ⟨ts2, h2, hz⟩ := schedulerLoop_terminates 2147483647 ts 0 (le_refl 0)
    (by omega) hlen (by unfold INT_MAX; simp)
    (fun t ht _ => by
      have := (h t ht).2.2
      unfold INT_MAX at this
      simpa using this)
  exact ⟨2147483647 + 1, ts2, h2, liveCount_eq_zero ts2 hz⟩

/-! ### C16 -/

/-- C16 fails on the code: on the registry holding one record that its worker
has already marked Completed (a deposit submitted and run), every pass leaves
`completed_transactions` at 0, below `transaction_count` = 1, so the `while`
loop is still running after any number of passes. -/
theorem round_robin_scheduler_never_returns :
    (runSystem { accounts := [⟨7, 50⟩], transactions := [] }
      [SystemCall.create_transaction 7 Operation.deposit 20, SystemCall.worker 0]).transactions
      = [completedRecord] ∧
    completedRecord.status = 1 ∧ 0 ≤ completedRecord.remaining_time ∧
    schedulerPass [completedRecord] 0 = ([completedRecord], 0) ∧
    ∀ fuel : Nat, round_robin_scheduler fuel [completedRecord] = none := by
  refine ⟨by decide, by decide, by decide, by decide, ?_⟩
  intro fuel
  exact round_robin_scheduler_diverges [completedRecord]
    ⟨completedRecord, List.mem_singleton.mpr rfl, Or.inl (by decide)⟩ fuel

/-! ### Deposits in sequence -/

theorem depositScan_eq_setBalance (c a : Int) (accs : List Account) (b : Int)
    (h : findBalance c accs = some b) :
    depositScan c a accs = (0, setBalance c (wrapInt (b + a)) accs) := by
  induction accs with
  | nil => simp [findBalance] at h
  | cons x rest ih =>
    by_cases hc : x.customer_id = c
    · simp [findBalance, hc] at h
      simp [depositScan, setBalance, hc, h]
    · simp [findBalance, hc] at h
      simp [depositScan, setBalance, hc, ih h]

theorem findBalance_setBalance (c v : Int) (accs : List Account) (b : Int)
    (h : findBalance c accs = some b) : findBalance c (setBalance c v accs) = some v := by
  induction accs with
  | nil => simp [findBalance] at h
  | cons x rest ih =>
    by_cases hc : x.customer_id = c
    · simp [findBalance, setBalance, hc]
    · simp [findBalance, hc] at h
      simp [findBalance, setBalance, hc, ih h]

theorem setBalance_setBalance (c v w : Int) (accs : List Account) :
    setBalance c v (setBalance c w accs) = setBalance c v accs := by
  induction accs with
  | nil => rfl
  | cons x rest ih =>
    by_cases hc : x.customer_id = c
    · simp [setBalance, hc]
    · simp [setBalance, hc, ih]

theorem setBalance_self (c : Int) (accs : List Account) (b : Int)
    (h : findBalance c accs = some b) : setBalance c b accs = accs := by
  induction accs with
  | nil => rfl
  | cons x rest ih =>
    by_cases hc : x.customer_id = c
    · simp [findBalance, hc] at h
      subst hc
      subst h
      unfold setBalance
      rw [if_pos rfl]
    · simp [findBalance, hc] at h
      simp [setBalance, hc, ih h]

/-- Closed form of a run of deposits of non-negative amounts on one account. -/
theorem depositAll_eq (c : Int) (amounts : List Int) :
    ∀ (accs : List Account) (b : Int), findBalance c accs = some b →
      INT_MIN ≤ b → b ≤ INT_MAX → (∀ a ∈ amounts, 0 ≤ a) →
      depositAll c accs amounts = setBalance c (wrapInt (b + amounts.sum)) accs := by
  induction amounts with
  | nil =>
    intro accs b h h0 h1 _
    simp [depositAll, wrapInt_of_inRange b h0 h1, setBalance_self c accs b h]
  | cons a rest ih =>
    intro accs b h h0 h1 hnn
    have ha : ¬ a < 0 := not_lt.mpr (hnn a (List.mem_cons_self a rest))
    have hd : (deposit accs c a).2 = setBalance c (wrapInt (b + a)) accs := by
      simp [deposit, ha, depositScan_eq_setBalance c a accs b h]
    have hw := wrapInt_range (b + a)
    have hf := findBalance_setBalance c (wrapInt (b + a)) accs b h
    have := ih (setBalance c (wrapInt (b + a)) accs) (wrapInt (b + a)) hf hw.1 hw.2
      (fun x hx => hnn x (List.mem_cons_of_mem a hx))
    simp only [depositAll, List.foldl_cons, hd] at this ⊢
    rw [this, setBalance_setBalance, List.sum_cons]
    congr 1
    unfold wrapInt; omega

/-! ### C17 -/

/-- C17, as stated, fails: on the ledger holding account 1 with balance
`INT_MAX`, the single deposit of 1 leaves the balance `INT_MIN`, not
`INT_MAX + 1`. -/
theorem deposits_sum_overflow_counterexample :
    findBalance 1 [⟨1, 2147483647⟩] = some 2147483647 ∧
    depositAll 1 [⟨1, 2147483647⟩] [1] = [⟨1, -2147483648⟩] ∧
    findBalance 1 (depositAll 1 [⟨1, 2147483647⟩] [1]) ≠ some (2147483647 + 1) := by
  decide

/-- C17 (amended): for every ledger holding an account `c` with balance `b`
(a C `int`) and every list of non-negative amounts, applying `deposit(c, ai)`
once for each amount in any order (every permutation of the list) yields the
same final ledger, in which the balance of `c` is `b + (a1 + ... + ak)`
reduced to the 32-bit `int` range, and exactly `b + (a1 + ... + ak)` whenever
that sum does not exceed `INT_MAX`. -/
theorem deposits_any_order (c : Int) (accs : List Account) (b : Int)
    (amounts order : List Int) (hfind : findBalance c accs = some b)
    (hb0 : INT_MIN ≤ b) (hb1 : b ≤ INT_MAX) (hnn : ∀ a ∈ amounts, 0 ≤ a)
    (hperm : order.Perm amounts) :
    depositAll c accs order = depositAll c accs amounts ∧
    findBalance c (depositAll c accs order) = some (wrapInt (b + amounts.sum)) ∧
    (b + amounts.sum ≤ INT_MAX →
      findBalance c (depositAll c accs order) = some (b + amounts.sum)) := by
  have hnn2 : ∀ a ∈ order, 0 ≤ a := fun a ha => hnn a (hperm.subset ha)
  have hsum : order.sum = amounts.sum := hperm.sum_eq
  have h1 := depositAll_eq c order accs b hfind hb0 hb1 hnn2
  have h2 := depositAll_eq c amounts accs b hfind hb0 hb1 hnn
  have hs : 0 ≤ amounts.sum := List.sum_nonneg hnn
  rw [h1, h2, hsum]
  refine ⟨rfl, findBalance_setBalance c _ accs b hfind, ?_⟩
  intro hle
  rw [findBalance_setBalance c _ accs b hfind,
    wrapInt_of_inRange _ (by omega) hle]

/-- Witness for C17 (amended): deposits of 5, 0 and 20 on account 7 holding
50, in the order 20, 5, 0. -/
theorem deposits_any_order_witness :
    findBalance 7 [⟨3, 10⟩, ⟨7, 50⟩] = some 50 ∧
    depositAll 7 [⟨3, 10⟩, ⟨7, 50⟩] [20, 5, 0] = [⟨3, 10⟩, ⟨7, 75⟩] ∧
    depositAll 7 [⟨3, 10⟩, ⟨7, 50⟩] [20, 5, 0] = depositAll 7 [⟨3, 10⟩, ⟨7, 50⟩] [5, 0, 20] ∧
    findBalance 7 (depositAll 7 [⟨3, 10⟩, ⟨7, 50⟩] [20, 5, 0])
      = some (wrapInt (50 + ([5, 0, 20] : List Int).sum)) ∧
    findBalance 7 (depositAll 7 [⟨3, 10⟩, ⟨7, 50⟩] [20, 5, 0])
      = some (50 + ([5, 0, 20] : List Int).sum) :=
  ⟨by decide, by decide,
   (deposits_any_order 7 [⟨3, 10⟩, ⟨7, 50⟩] 50 [5, 0, 20] [20, 5, 0] (by decide) (by decide)
      (by decide) (by decide) (by decide)).1,
   (deposits_any_order 7 [⟨3, 10⟩, ⟨7, 50⟩] 50 [5, 0, 20] [20, 5, 0] (by decide) (by decide)
      (by decide) (by decide) (by decide)).2.1,
   (deposits_any_order 7 [⟨3, 10⟩, ⟨7, 50⟩] 50 [5, 0, 20] [20, 5, 0] (by decide) (by decide)
      (by decide) (by decide) (by decide)).2.2 (by decide)⟩

/-! ### C18 -/

theorem checkBalanceScan_not_found (id : Int) (accs : List Account)
    (h : ∀ a ∈ accs, a.customer_id ≠ id) : checkBalanceScan id accs = -1 := by
  induction accs with
  | nil => rfl
  | cons x rest ih =>
    have hx := h x (List.mem_cons_self x rest)
    simp [checkBalanceScan, hx, ih (fun a ha => h a (List.mem_cons_of_mem x ha))]

theorem checkBalanceScan_first (id : Int) (pre : List Account) (a : Account)
    (post : List Account) (hpre : ∀ x ∈ pre, x.customer_id ≠ id) (ha : a.customer_id = id) :
    checkBalanceScan id (pre ++ a :: post) = a.balance := by
  induction pre with
  | nil => simp [checkBalanceScan, ha]
  | cons x rest ih =>
    have hx := hpre x (List.mem_cons_self x rest)
    simp [checkBalanceScan, hx, ih (fun y hy => hpre y (List.mem_cons_of_mem x hy))]

theorem checkBalanceScan_of_mem (id : Int) (accs : List Account)
    (hnd : (accs.map Account.customer_id).Nodup) (a : Account) (ha : a ∈ accs)
    (hid : a.customer_id = id) : checkBalanceScan id accs = a.balance := by
  induction accs with
  | nil => simp at ha
  | cons x rest ih =>
    simp only [List.map_cons, List.nodup_cons] at hnd
    rcases List.mem_cons.mp ha with rfl | ha
    · simp [checkBalanceScan, hid]
    · have hx : x.customer_id ≠ id := by
        intro hx
        apply hnd.1
        rw [hx, ← hid]
        exact List.mem_map_of_mem Account.customer_id ha
      simp [checkBalanceScan, hx, ih hnd.2 ha]

/-- C18: for every ledger and every id, `check_balance(id)` returns -4 when
`id < 0`; for `id ≥ 0` it returns -1 when no account has that id, and the
stored balance of the account with that id when there is one (the first entry
the scan meets; any entry with that id when the ids are pairwise distinct).
The function only reads the table. -/
theorem check_balance_spec (accs : List Account) (id : Int) :
    (id < 0 → check_balance accs id = -4) ∧
    (0 ≤ id → (∀ a ∈ accs, a.customer_id ≠ id) → check_balance accs id = -1) ∧
    (0 ≤ id → ∀ (pre : List Account) (a : Account) (post : List Account),
      accs = pre ++ a :: post → (∀ x ∈ pre, x.customer_id ≠ id) → a.customer_id = id →
      check_balance accs id = a.balance) ∧
    (0 ≤ id → (accs.map Account.customer_id).Nodup →
      ∀ a ∈ accs, a.customer_id = id → check_balance accs id = a.balance) := by
  refine ⟨?_, ?_, ?_, ?_⟩
  · intro h
    simp [check_balance, h]
  · intro h hno
    simp [check_balance, not_lt.mpr h, checkBalanceScan_not_found id accs hno]
  · intro h pre a post he hpre ha
    simp [check_balance, not_lt.mpr h, he, checkBalanceScan_first id pre a post hpre ha]
  · intro h hnd a ha hid
    simp [check_balance, not_lt.mpr h, checkBalanceScan_of_mem id accs hnd a ha hid]

/-- Witness for C18: the ledger with accounts 3 and 7, asked for the ids -2, 5
and 7. -/
theorem check_balance_spec_witness :
    check_balance [⟨3, 10⟩, ⟨7, 50⟩] (-2) = -4 ∧
    check_balance [⟨3, 10⟩, ⟨7, 50⟩] 5 = -1 ∧
    check_balance [⟨3, 10⟩, ⟨7, 50⟩] 7 = (⟨7, 50⟩ : Account).balance ∧
    check_balance [⟨3, 10⟩, ⟨7, 50⟩] 3 = (⟨3, 10⟩ : Account).balance :=
  ⟨(check_balance_spec [⟨3, 10⟩, ⟨7, 50⟩] (-2)).1 (by decide),
   (check_balance_spec [⟨3, 10⟩, ⟨7, 50⟩] 5).2.1 (by decide) (by decide),
   (check_balance_spec [⟨3, 10⟩, ⟨7, 50⟩] 7).2.2.1 (by decide) [⟨3, 10⟩] ⟨7, 50⟩ [] rfl
     (by decide) rfl,
   (check_balance_spec [⟨3, 10⟩, ⟨7, 50⟩] 3).2.2.2 (by decide) (by decide) ⟨3, 10⟩
     (by decide) rfl⟩

/-! ### C19 -/

theorem checkBalanceScan_append_new (c b : Int) (accs : List Account)
    (h : ∀ a ∈ accs, a.customer_id ≠ c) :
    checkBalanceScan c (accs ++ [⟨c, b⟩]) = b := by
  have := checkBalanceScan_first c accs ⟨c, b⟩ [] h rfl
  simpa using this

theorem checkBalanceScan_append_other (id c b : Int) (accs : List Account) (h : id ≠ c) :
    checkBalanceScan id (accs ++ [⟨c, b⟩]) = checkBalanceScan id accs := by
  induction accs with
  | nil => simp [checkBalanceScan, Ne.symm h]
  | cons x rest ih =>
    by_cases hx : x.customer_id = id
    · simp [checkBalanceScan, hx]
    · simp [checkBalanceScan, hx, ih]

/-- C19, as stated, fails: over a pool of one slot that is in use and stamped
`INT_MAX`, `allocate_page` returns NULL and `create_account(1, 50)` on the
empty ledger returns -3 and appends nothing. -/
theorem create_account_no_storage_counterexample :
    stampedMaxPool.pages.length = 1 ∧
    create_account (emptyBank stampedMaxPool) 1 50 = (-3, emptyBank stampedMaxPool) ∧
    (create_account (emptyBank stampedMaxPool) 1 50).1 ≠ 0 := by
  decide

/-- C19 (amended): for every ledger with fewer than 100 accounts, a pool with
a slot that is free or stamped below `INT_MAX`, and every id `c ≥ 0` not yet
present, `create_account(c, b)` returns 0 and appends exactly the entry
`(c, b)` at the end of the account table, every existing entry staying as it
was (whichever slot the allocator hands out); afterwards `check_balance(c)`
returns `b` and `check_balance` of every other id returns what it returned
before. -/
theorem create_account_fresh (s : Bank) (c b : Int) (hlen : s.accounts.length < 100)
    (hc : 0 ≤ c) (hnew : ∀ a ∈ s.accounts, a.customer_id ≠ c)
    (hpool : ∃ p ∈ s.memory_map.pages, p.is_used = 0 ∨ p.last_access_time < INT_MAX) :
    (create_account s c b).1 = 0 ∧
    (create_account s c b).2.accounts = s.accounts ++ [⟨c, b⟩] ∧
    check_balance (create_account s c b).2.accounts c = b ∧
    (∀ id, id ≠ c →
      check_balance (create_account s c b).2.accounts id = check_balance s.accounts id) := by
  have hcap : ¬ s.accounts.length ≥ MAX_ACCOUNTS := by simp [MAX_ACCOUNTS]; omega
  have hdup : ¬ hasAccount c s.accounts = true := by
    rw [hasAccount_iff]
    rintro ⟨a, ha, hid⟩
    exact hnew a ha hid
  have hsome : (allocate_page s.memory_map).1 ≠ none := by
    rw [Ne, allocate_page_none_iff]
    intro hall
    obtain ⟨p, hp, hfree⟩ := hpool
    have := hall p hp
    rcases hfree with hfree | hfree
    · exact this.1 hfree
    · omega
  have hres : (create_account s c b).1 = 0 ∧
      (create_account s c b).2.accounts = s.accounts ++ [⟨c, b⟩] := by
    unfold create_account
    simp only [hcap, hdup, if_false]
    cases hall : allocate_page s.memory_map with
    | mk r mm =>
      cases r with
      | none => rw [hall] at hsome; exact absurd rfl hsome
      | some i => exact ⟨rfl, rfl⟩
  refine ⟨hres.1, hres.2, ?_, ?_⟩
  · rw [hres.2]
    simp [check_balance, not_lt.mpr hc, checkBalanceScan_append_new c b s.accounts hnew]
  · intro id hid
    rw [hres.2]
    unfold check_balance
    split
    · rfl
    · exact checkBalanceScan_append_other id c b s.accounts hid

/-- Witness for C19 (amended): the third account of the two-slot scenario,
whose slot is taken from customer 1. -/
theorem create_account_fresh_witness :
    (runLedger (emptyBank twoSlotPool)
      [LedgerCall.create_account 1 10, LedgerCall.create_account 2 20])
      = { accounts := [⟨1, 10⟩, ⟨2, 20⟩],
          memory_map :=
            { pages := [{ data := some ⟨1, 10⟩, size := 8, is_used := 1, last_access_time := 0 },
                        { data := some ⟨2, 20⟩, size := 8, is_used := 1, last_access_time := 0 }],
              current_time := 0 } } ∧
    (create_account (runLedger (emptyBank twoSlotPool)
        [LedgerCall.create_account 1 10, LedgerCall.create_account 2 20]) 3 30).1 = 0 ∧
    (create_account (runLedger (emptyBank twoSlotPool)
        [LedgerCall.create_account 1 10, LedgerCall.create_account 2 20]) 3 30).2.accounts
      = (runLedger (emptyBank twoSlotPool)
        [LedgerCall.create_account 1 10, LedgerCall.create_account 2 20]).accounts
          ++ [⟨3, 30⟩] ∧
    check_balance (create_account (runLedger (emptyBank twoSlotPool)
        [LedgerCall.create_account 1 10, LedgerCall.create_account 2 20]) 3 30).2.accounts 3
      = 30 ∧
    check_balance (create_account (runLedger (emptyBank twoSlotPool)
        [LedgerCall.create_account 1 10, LedgerCall.create_account 2 20]) 3 30).2.accounts 1
      = check_balance (runLedger (emptyBank twoSlotPool)
        [LedgerCall.create_account 1 10, LedgerCall.create_account 2 20]).accounts 1 :=
  ⟨by decide,
   (create_account_fresh (runLedger (emptyBank twoSlotPool)
      [LedgerCall.create_account 1 10, LedgerCall.create_account 2 20]) 3 30
      (by decide) (by decide) (by decide)
      ⟨{ data := some ⟨1, 10⟩, size := 8, is_used := 1, last_access_time := 0 },
        by decide, Or.inr (by decide)⟩).1,
   (create_account_fresh (runLedger (emptyBank twoSlotPool)
      [LedgerCall.create_account 1 10, LedgerCall.create_account 2 20]) 3 30
      (by decide) (by decide) (by decide)
      ⟨{ data := some ⟨1, 10⟩, size := 8, is_used := 1, last_access_time := 0 },
        by decide, Or.inr (by decide)⟩).2.1,
   (create_account_fresh (runLedger (emptyBank twoSlotPool)
      [LedgerCall.create_account 1 10, LedgerCall.create_account 2 20]) 3 30
      (by decide) (by decide) (by decide)
      ⟨{ data := some ⟨1, 10⟩, size := 8, is_used := 1, last_access_time := 0 },
        by decide, Or.inr (by decide)⟩).2.2.1,
   (create_account_fresh (runLedger (emptyBank twoSlotPool)
      [LedgerCall.create_account 1 10, LedgerCall.create_account 2 20]) 3 30
      (by decide) (by decide) (by decide)
      ⟨{ data := some ⟨1, 10⟩, size := 8, is_used := 1, last_access_time := 0 },
        by decide, Or.inr (by decide)⟩).2.2.2 1 (by decide)⟩

/-! ### C20 -/

theorem depositScan_frame (c amount : Int) (accs : List Account) :
    ∀ (i : Nat) (a a2 : Account), accs[i]? = some a →
      (depositScan c amount accs).2[i]? = some a2 → a.customer_id ≠ c → a2 = a := by
  induction accs with
  | nil => intro i a a2 h; simp at h
  | cons x rest ih =>
    intro i a a2 h h2 hne
    by_cases hc : x.customer_id = c
    · simp only [depositScan, hc, if_true] at h2
      cases i with
      | zero =>
        simp only [List.getElem?_cons_zero, Option.some.injEq] at h
        subst h
        exact absurd hc hne
      | succ j =>
        simp only [List.getElem?_cons_succ] at h h2
        rw [h] at h2
        exact (Option.some.inj h2).symm
    · simp only [depositScan, hc, if_false] at h2
      cases i with
      | zero =>
        simp only [List.getElem?_cons_zero, Option.some.injEq] at h h2
        rw [← h2, h]
      | succ j =>
        simp only [List.getElem?_cons_succ] at h h2
        exact ih j a a2 h h2 hne

theorem withdrawScan_frame (c amount : Int) (accs : List Account) :
    ∀ (i : Nat) (a a2 : Account), accs[i]? = some a →
      (withdrawScan c amount accs).2[i]? = some a2 → a.customer_id ≠ c → a2 = a := by
  induction accs with
  | nil => intro i a a2 h; simp at h
  | cons x rest ih =>
    intro i a a2 h h2 hne
    by_cases hc : x.customer_id = c
    · cases i with
      | zero =>
        simp only [List.getElem?_cons_zero, Option.some.injEq] at h
        subst h
        exact absurd hc hne
      | succ j =>
        have h3 : (withdrawScan c amount (x :: rest)).2[j + 1]? = rest[j]? := by
          simp only [withdrawScan, hc, if_true]
          split <;> simp
        rw [h3] at h2
        simp only [List.getElem?_cons_succ] at h
        rw [h] at h2
        exact (Option.some.inj h2).symm
    · simp only [withdrawScan, hc, if_false] at h2
      cases i with
      | zero =>
        simp only [List.getElem?_cons_zero, Option.some.injEq] at h h2
        rw [← h2, h]
      | succ j =>
        simp only [List.getElem?_cons_succ] at h h2
        exact ih j a a2 h h2 hne

theorem depositScan_error (c amount : Int) (accs : List Account)
    (h : (depositScan c amount accs).1 ≠ 0) : (depositScan c amount accs).2 = accs := by
  induction accs with
  | nil => rfl
  | cons x rest ih =>
    by_cases hc : x.customer_id = c
    · simp [depositScan, hc] at h
    · simp only [depositScan, hc, if_false] at h ⊢
      rw [ih h]

theorem withdrawScan_error (c amount : Int) (accs : List Account)
    (h : (withdrawScan c amount accs).1 ≠ 0) : (withdrawScan c amount accs).2 = accs := by
  induction accs with
  | nil => rfl
  | cons x rest ih =>
    by_cases hc : x.customer_id = c
    · by_cases hge : x.balance ≥ amount
      · simp [withdrawScan, hc, hge] at h
      · simp [withdrawScan, hc, hge]
    · simp only [withdrawScan, hc, if_false] at h ⊢
      rw [ih h]

/-- C20: for every ledger, id `c` and amount, `deposit(c, amount)` and
`withdraw(c, amount)` keep `account_count` and the `customer_id` of every
entry, leave every entry whose `customer_id` differs from `c` as it was, and
leave the whole table as it was whenever they return a non-zero code. -/
theorem deposit_withdraw_frame (accs : List Account) (c amount : Int) :
    ((deposit accs c amount).2.length = accs.length ∧
      (deposit accs c amount).2.map Account.customer_id = accs.map Account.customer_id ∧
      (∀ (i : Nat) (a a2 : Account), accs[i]? = some a →
        (deposit accs c amount).2[i]? = some a2 → a.customer_id ≠ c →
        a2.balance = a.balance) ∧
      ((deposit accs c amount).1 ≠ 0 → (deposit accs c amount).2 = accs)) ∧
    ((withdraw accs c amount).2.length = accs.length ∧
      (withdraw accs c amount).2.map Account.customer_id = accs.map Account.customer_id ∧
      (∀ (i : Nat) (a a2 : Account), accs[i]? = some a →
        (withdraw accs c amount).2[i]? = some a2 → a.customer_id ≠ c →
        a2.balance = a.balance) ∧
      ((withdraw accs c amount).1 ≠ 0 → (withdraw accs c amount).2 = accs)) := by
  have hd := deposit_ids c amount accs
  have hw := withdraw_ids c amount accs
  refine ⟨⟨by simpa using congrArg List.length hd, hd, ?_, ?_⟩,
    ⟨by simpa using congrArg List.length hw, hw, ?_, ?_⟩⟩
  · intro i a a2 h h2 hne
    unfold deposit at h2
    split at h2
    · rw [h] at h2
      rw [← Option.some.inj h2]
    · rw [depositScan_frame c amount accs i a a2 h h2 hne]
  · intro h
    unfold deposit at h ⊢
    split
    · rfl
    · rename_i hneg
      simp only [hneg, if_false] at h
      exact depositScan_error c amount accs h
  · intro i a a2 h h2 hne
    unfold withdraw at h2
    split at h2
    · rw [h] at h2
      rw [← Option.some.inj h2]
    · rw [withdrawScan_frame c amount accs i a a2 h h2 hne]
  · intro h
    unfold withdraw at h ⊢
    split
    · rfl
    · rename_i hneg
      simp only [hneg, if_false] at h
      exact withdrawScan_error c amount accs h

/-- Witness for C20: a deposit of 20 on account 7, and a withdrawal of 100
from it that is refused, on a ledger that also holds account 3. -/
theorem deposit_withdraw_frame_witness :
    deposit [⟨3, 10⟩, ⟨7, 50⟩] 7 20 = (0, [⟨3, 10⟩, ⟨7, 70⟩]) ∧
    withdraw [⟨3, 10⟩, ⟨7, 50⟩] 7 100 = (-2, [⟨3, 10⟩, ⟨7, 50⟩]) ∧
    (deposit [⟨3, 10⟩, ⟨7, 50⟩] 7 20).2.length = [(⟨3, 10⟩ : Account), ⟨7, 50⟩].length ∧
    (⟨3, 10⟩ : Account).balance = (⟨3, 10⟩ : Account).balance ∧
    (withdraw [⟨3, 10⟩, ⟨7, 50⟩] 7 100).2 = [⟨3, 10⟩, ⟨7, 50⟩] :=
  ⟨by decide, by decide,
   (deposit_withdraw_frame [⟨3, 10⟩, ⟨7, 50⟩] 7 20).1.1,
   (deposit_withdraw_frame [⟨3, 10⟩, ⟨7, 50⟩] 7 20).1.2.2.1 0 ⟨3, 10⟩ ⟨3, 10⟩ rfl (by decide)
     (by decide),
   (deposit_withdraw_frame [⟨3, 10⟩, ⟨7, 50⟩] 7 100).2.2.2.2 (by decide)⟩

end Fpos
